import Mathlib

/-!
# imapclient: COMPRESS=DEFLATE transport upgrade

A shallow embedding of `imapclient/compress.go`: the codec wrapper
`compressConn` (Read / Write / Close), the pipeline swap
`Client.upgradeCompress`, and the negotiating call `Client.CompressDeflate`.
Go I/O objects are embedded as explicit state: a network heap maps every
connection to its inbound segments, outbound bytes and call counters, and every
operation takes the heap and returns the updated heap.
-/

namespace Imapclient

/-! ## Basic data -/

/-- A byte, as its numeric value. -/
abbrev Byte := Nat

/-- Go `error` values that occur in this development. -/
inductive GoError where
  | EOF
  | ErrUnexpectedEOF
  | CorruptInput (offset : Nat)
  | InvalidLevel (level : Int)
  | ErrNoProgress
  | ErrShortWrite
  | other (msg : String)
  deriving DecidableEq, Repr

/-! ## compressConn.Close -/

/-- The three layers owned by a `compressConn`. -/
inductive Layer where
  | r
  | w
  | Conn
  deriving DecidableEq, Repr

/-- An `io.Closer`: the value its `Close` returns and how many times it was called. -/
structure Closer where
  result : Option GoError
  calls : Nat
  deriving DecidableEq, Repr

/-- Calling `Close` on a closer: returns its result and counts the call. -/
def Closer.Close (c : Closer) : Option GoError × Closer :=
  (c.result, { c with calls := c.calls + 1 })

/-- The closing view of a `compressConn`: its three closers and the order in
which their `Close` methods have been invoked so far. -/
structure CloseLayers where
  r : Closer
  w : Closer
  Conn : Closer
  order : List Layer
  deriving DecidableEq, Repr

/-- Go `func (conn *compressConn) Close() error`. -/
def compressConn_Close (conn : CloseLayers) : Option GoError × CloseLayers :=
  let (e1, r1) := conn.r.Close
  let s1 := { conn with r := r1, order := conn.order ++ [Layer.r] }
  match e1 with
  | some err => (some err, s1)
  | none =>
    let (e2, w2) := s1.w.Close
    let s2 := { s1 with w := w2, order := s1.order ++ [Layer.w] }
    match e2 with
    | some err => (some err, s2)
    | none =>
      let (e3, c3) := s2.Conn.Close
      (e3, { s2 with Conn := c3, order := s2.order ++ [Layer.Conn] })

/-- A fresh set of layers, none closed yet, with the given `Close` results. -/
def freshLayers (er ew ec : Option GoError) : CloseLayers :=
  { r := ⟨er, 0⟩, w := ⟨ew, 0⟩, Conn := ⟨ec, 0⟩, order := [] }

/-! ## The network heap and the leaf readers -/

/-- A connection is named by a reference; the heap maps it to its state. -/
abbrev ConnRef := Nat

/-- State of one `net.Conn`: the segments the peer has sent and that were not
read yet, the bytes written to the peer, and call counters. -/
structure ConnState where
  inbound : List (List Byte)
  outbound : List Byte
  reads : Nat
  writes : Nat
  deriving DecidableEq, Repr

/-- The network: the state of every connection. -/
abbrev Net := ConnRef → ConnState

/-- Result of a Go `Read`: the bytes placed in `p[:n]` and the error. -/
abbrev ReadResult := List Byte × Option GoError

/-- Go `net.Conn.Read(p)` with `len(p) = n`: delivers at most `n` bytes of the next
segment; when the peer has closed and nothing is left it returns `io.EOF`. -/
def ConnState.Read (c : ConnState) (n : Nat) : ReadResult × ConnState :=
  match c.inbound with
  | [] => (([], some GoError.EOF), { c with reads := c.reads + 1 })
  | seg :: rest =>
    let tail := if seg.drop n = [] then rest else seg.drop n :: rest
    ((seg.take n, none), { c with inbound := tail, reads := c.reads + 1 })

/-- Go `net.Conn.Write(b)`: the bytes reach the peer in order. -/
def ConnState.Write (c : ConnState) (b : List Byte) : Option GoError × ConnState :=
  (none, { c with outbound := c.outbound ++ b, writes := c.writes + 1 })

/-- Go `(*bytes.Buffer).Read(p)` with `len(p) = n` on a buffer holding `data`. -/
def bytesBuffer_Read (data : List Byte) (n : Nat) : ReadResult × List Byte :=
  if data = [] then
    if n = 0 then (([], none), []) else (([], some GoError.EOF), [])
  else ((data.take n, none), data.drop n)

/-- The readers `upgradeCompress` composes: a `*bytes.Buffer` or a `net.Conn`. -/
inductive SrcReader where
  | buffer (data : List Byte)
  | conn (ref : ConnRef)
  deriving DecidableEq, Repr

/-- Go `Read` on a leaf reader. -/
def SrcReader.Read (r : SrcReader) (n : Nat) (net : Net) : ReadResult × SrcReader × Net :=
  match r with
  | .buffer data =>
    let (res, data1) := bytesBuffer_Read data n
    (res, .buffer data1, net)
  | .conn ref =>
    let (res, c1) := (net ref).Read n
    (res, .conn ref, Function.update net ref c1)

/-- Go `(*multiReader).Read(p)` from package `io`, on the list `mr.readers`. -/
def multiReader_Read : List SrcReader → Nat → Net → ReadResult × List SrcReader × Net
  | [], _, net => (([], some GoError.EOF), [], net)
  | r :: rs, n, net =>
    let (res, r1, net1) := r.Read n net
    let readers := if res.2 = some GoError.EOF then rs else r1 :: rs
    if 0 < res.1.length ∨ res.2 ≠ some GoError.EOF then
      let err := if res.2 = some GoError.EOF ∧ 0 < readers.length then none else res.2
      ((res.1, err), readers, net1)
    else multiReader_Read rs n net1

/-- The `io.Reader` value `r` that `upgradeCompress` hands to `flate.NewReader`:
either `c.conn` itself or `io.MultiReader(&buf, c.conn)`. -/
inductive ReadSource where
  | direct (ref : ConnRef)
  | multi (readers : List SrcReader)
  deriving DecidableEq, Repr

/-- Go `Read` on the read source. -/
def ReadSource.Read (s : ReadSource) (n : Nat) (net : Net) : ReadResult × ReadSource × Net :=
  match s with
  | .direct ref =>
    let (res, c1) := (net ref).Read n
    (res, .direct ref, Function.update net ref c1)
  | .multi readers =>
    let (res, readers1, net1) := multiReader_Read readers n net
    (res, .multi readers1, net1)

/-- Repeated `Read` calls on the read source, one per buffer length in `sizes`,
stopping at the first error. Returns the bytes obtained in order, the error that
ended the reading (`none` when `sizes` ran out first), and the final state. -/
def ReadSource.readAll : List Nat → ReadSource → Net → (List Byte × Option GoError) × ReadSource × Net
  | [], s, net => (([], none), s, net)
  | n :: sizes, s, net =>
    let (res, s1, net1) := s.Read n net
    match res.2 with
    | some e => ((res.1, some e), s1, net1)
    | none =>
      let (rest, s2, net2) := ReadSource.readAll sizes s1 net1
      ((res.1 ++ rest.1, rest.2), s2, net2)

/-! ## compress/flate: the decompressor (RFC 1951), after `inflate.go` -/

/-- The decompressor's input side: unread input bytes, the count of bytes
pulled so far (`roffset`), and the bit buffer `b` holding `nb` valid bits. -/
structure Bits where
  input : List Byte
  roffset : Nat
  b : Nat
  nb : Nat
  deriving DecidableEq, Repr

/-- Why decoding stopped short of the end of the stream. -/
inductive Stop where
  | needInput
  | corrupt (offset : Nat)
  | internalError
  | outOfFuel
  deriving DecidableEq, Repr

/-- Go `moreBits`: pull one byte into the bit buffer. -/
def Bits.moreBits (s : Bits) : Option Bits :=
  match s.input with
  | [] => none
  | c :: rest =>
    some { input := rest, roffset := s.roffset + 1, b := s.b ||| (c <<< s.nb), nb := s.nb + 8 }

/-- The loop `for f.nb < k { moreBits }`; at most `k` pulls are ever needed. -/
def Bits.needAux (k : Nat) : Nat → Bits → Except Stop Bits
  | 0, s => if s.nb < k then .error .outOfFuel else .ok s
  | fuel + 1, s =>
    if s.nb < k then
      match s.moreBits with
      | none => .error .needInput
      | some s1 => Bits.needAux k fuel s1
    else .ok s

def Bits.need (k : Nat) (s : Bits) : Except Stop Bits := Bits.needAux k k s

/-- Take the low `k` bits out of the bit buffer (`f.b & (1<<k - 1)`, `f.b >>= k`). -/
def Bits.take (k : Nat) (s : Bits) : Nat × Bits :=
  (s.b &&& (2 ^ k - 1), { s with b := s.b >>> k, nb := s.nb - k })

/-- A canonical Huffman decoder: the shortest code length, the number of codes
of each length, and the symbols ordered by code length and then by value. -/
structure huffmanDecoder where
  min : Nat
  count : List Nat
  symbols : List Nat
  deriving DecidableEq, Repr

/-- Go `(*huffmanDecoder).init(lengths)`: `none` when the lengths do not form a
complete code (a single code of length one is accepted, as is the empty code). -/
def huffmanDecoder_init (lengths : List Nat) : Option huffmanDecoder :=
  let nz := lengths.filter (fun n => n ≠ 0)
  let max := nz.foldl Nat.max 0
  let min := nz.foldl Nat.min max
  let count := (List.range 16).map (fun n => if n = 0 then 0 else lengths.count n)
  if max = 0 then some ⟨0, count, []⟩
  else
    let code := ((List.range (max + 1)).drop min).foldl (fun code i => 2 * code + count.getD i 0) 0
    if code ≠ 2 ^ max ∧ ¬(code = 1 ∧ max = 1) then none
    else
      let symbols := (List.range 16).flatMap (fun n =>
        if n = 0 then [] else (List.range lengths.length).filter (fun sym => lengths.getD sym 0 = n))
      some ⟨min, count, symbols⟩

/-- The table lookup of `huffSym` on the bit buffer `b`: walks the code lengths
in increasing order; returns the symbol and its code length, `none` for a bit
pattern that is no code. -/
def huffLookup (symbols : List Nat) : List Nat → Nat → Nat → Nat → Nat → Nat → Option (Nat × Nat)
  | [], _, _, _, _, _ => none
  | cnt :: cs, len, b, code, first, index =>
    let code1 := code + b % 2
    if code1 < first + cnt then some (symbols.getD (index + (code1 - first)) 0, len)
    else huffLookup symbols cs (len + 1) (b / 2) (2 * code1) (2 * (first + cnt)) (index + cnt)

def huffmanDecoder.lookup (h : huffmanDecoder) (b : Nat) : Option (Nat × Nat) :=
  huffLookup h.symbols (h.count.drop 1) 1 b 0 0 0

/-- Go `(*decompressor).huffSym(h)`: read the next Huffman-encoded symbol. -/
def huffSymAux (h : huffmanDecoder) : Nat → Nat → Bits → Except Stop (Nat × Bits)
  | 0, _, _ => .error .outOfFuel
  | fuel + 1, n, s =>
    match s.need n with
    | .error e => .error e
    | .ok s1 =>
      match h.lookup s1.b with
      | none => .error (.corrupt s1.roffset)
      | some (sym, n1) =>
        if n1 ≤ s1.nb then .ok (sym, { s1 with b := s1.b >>> n1, nb := s1.nb - n1 })
        else huffSymAux h fuel n1 s1

def huffSym (h : huffmanDecoder) (s : Bits) : Except Stop (Nat × Bits) :=
  huffSymAux h 4 h.min s

/-- The fixed Huffman code lengths of RFC 1951 section 3.2.6. -/
def fixedLengths : List Nat :=
  List.replicate 144 8 ++ List.replicate 112 9 ++ List.replicate 24 7 ++ List.replicate 8 8

/-- The order in which code-length code lengths are sent (`codeOrder`). -/
def codeOrder : List Nat := [16, 17, 18, 0, 8, 7, 9, 6, 10, 5, 11, 4, 12, 3, 13, 2, 14, 1, 15]

/-- Reverse the low five bits (`bits.Reverse8(uint8(b & 0x1F << 3))`). -/
def reverse5 (x : Nat) : Nat :=
  (x % 2) * 16 + (x / 2 % 2) * 8 + (x / 4 % 2) * 4 + (x / 8 % 2) * 2 + (x / 16 % 2)

/-- Length base and number of extra bits of a length symbol `v` (257..285). -/
def lengthCode (v : Nat) : Option (Nat × Nat) :=
  if v < 265 then some (v - (257 - 3), 0)
  else if v < 269 then some (v * 2 - (265 * 2 - 11), 1)
  else if v < 273 then some (v * 4 - (269 * 4 - 19), 2)
  else if v < 277 then some (v * 8 - (273 * 8 - 35), 3)
  else if v < 281 then some (v * 16 - (277 * 16 - 67), 4)
  else if v < 285 then some (v * 32 - (281 * 32 - 131), 5)
  else if v < 286 then some (258, 0)
  else none

/-- Append `length` bytes copied from `dist` bytes back (`hist` is newest first). -/
def copyHist : Nat → Nat → List Byte → List Byte
  | 0, _, hist => hist
  | length + 1, dist, hist => copyHist length dist (hist.getD (dist - 1) 0 :: hist)

/-- Decode the distance that follows a length symbol. -/
def readDist (hd : Option huffmanDecoder) (s : Bits) : Except Stop (Nat × Bits) := do
  let (dist, s1) ← match hd with
    | none => do
      let s0 ← s.need 5
      let (x, s1) := s0.take 5
      pure (reverse5 x, s1)
    | some h => huffSym h s
  if dist < 4 then pure (dist + 1, s1)
  else if dist < 30 then
    let nb := (dist - 2) >>> 1
    let extra := (dist &&& 1) <<< nb
    let s2 ← s1.need nb
    let (x, s3) := s2.take nb
    pure (1 <<< (nb + 1) + 1 + (extra ||| x), s3)
  else throw (.corrupt s1.roffset)

/-- Go `huffmanBlock`: decode one Huffman block. Returns the output so far (newest
first) and either the input state after the end-of-block symbol or why it stopped. -/
def huffmanBlock (hl : huffmanDecoder) (hd : Option huffmanDecoder) :
    Nat → Bits → List Byte → List Byte × Except Stop Bits
  | 0, _, hist => (hist, .error .outOfFuel)
  | fuel + 1, s, hist =>
    match huffSym hl s with
    | .error e => (hist, .error e)
    | .ok (v, s1) =>
      if v < 256 then huffmanBlock hl hd fuel s1 (v :: hist)
      else if v = 256 then (hist, .ok s1)
      else
        match lengthCode v with
        | none => (hist, .error (.corrupt s1.roffset))
        | some (base, n) =>
          match s1.need n with
          | .error e => (hist, .error e)
          | .ok s2 =>
            let (x, s3) := s2.take n
            let length := base + x
            match readDist hd s3 with
            | .error e => (hist, .error e)
            | .ok (dist, s4) =>
              if dist > min hist.length 32768 then (hist, .error (.corrupt s4.roffset))
              else huffmanBlock hl hd fuel s4 (copyHist length dist hist)

/-- The loop of `readHuffman` that reads the `n` literal/length and distance
code lengths with the code-length code `h1`; `acc` holds the lengths read so far. -/
def readCodeLengths (h1 : huffmanDecoder) (n : Nat) :
    Nat → Bits → List Nat → Except Stop (List Nat × Bits)
  | 0, _, _ => .error .outOfFuel
  | fuel + 1, s, acc =>
    if n ≤ acc.length then .ok (acc, s)
    else
      match huffSym h1 s with
      | .error e => .error e
      | .ok (x, s1) =>
        if x < 16 then readCodeLengths h1 n fuel s1 (acc ++ [x])
        else
          let i := acc.length
          let spec : Except Stop (Nat × Nat × Nat) :=
            if x = 16 then
              if i = 0 then .error (.corrupt s1.roffset) else .ok (3, 2, acc.getD (i - 1) 0)
            else if x = 17 then .ok (3, 3, 0)
            else if x = 18 then .ok (11, 7, 0)
            else .error .internalError
          match spec with
          | .error e => .error e
          | .ok (rep0, nb, b) =>
            match s1.need nb with
            | .error e => .error e
            | .ok s2 =>
              let (x1, s3) := s2.take nb
              let rep := rep0 + x1
              if i + rep > n then .error (.corrupt s3.roffset)
              else readCodeLengths h1 n fuel s3 (acc ++ List.replicate rep b)

/-- Read `nclen` three-bit code-length code lengths. -/
def readCodebits : Nat → Bits → List Nat → Except Stop (List Nat × Bits)
  | 0, s, acc => .ok (acc, s)
  | k + 1, s, acc =>
    match s.need 3 with
    | .error e => .error e
    | .ok s1 =>
      let (x, s2) := s1.take 3
      readCodebits k s2 (acc ++ [x])

/-- Go `readHuffman`: read the two Huffman codes that open a dynamic block. -/
def readHuffman (s : Bits) : Except Stop (huffmanDecoder × huffmanDecoder × Bits) := do
  let s0 ← s.need 14
  let (x, s1) := s0.take 5
  let nlit := x + 257
  if nlit > 286 then throw (.corrupt s0.roffset)
  let (y, s2) := s1.take 5
  let ndist := y + 1
  if ndist > 30 then throw (.corrupt s0.roffset)
  let (z, s3) := s2.take 4
  let nclen := z + 4
  let (cl, s4) ← readCodebits nclen s3 []
  let codebits := (List.range 19).map (fun sym =>
    match codeOrder.indexOf? sym with
    | some i => cl.getD i 0
    | none => 0)
  match huffmanDecoder_init codebits with
  | none => throw (.corrupt s4.roffset)
  | some h1 =>
    let (lens, s5) ← readCodeLengths h1 (nlit + ndist) (nlit + ndist + 1) s4 []
    match huffmanDecoder_init (lens.take nlit), huffmanDecoder_init ((lens.drop nlit).take ndist) with
    | some hl, some hd =>
      let eob := lens.getD 256 0
      let hl1 := if hl.min < eob then { hl with min := eob } else hl
      pure (hl1, hd, s5)
    | _, _ => throw (.corrupt s5.roffset)

/-- Go `dataBlock`: a stored block. Discards the partial byte, reads LEN and NLEN,
then copies LEN raw bytes. -/
def dataBlock (s : Bits) (hist : List Byte) : List Byte × Except Stop Bits :=
  match s.input with
  | b0 :: b1 :: b2 :: b3 :: rest =>
    let n := b0 ||| (b1 <<< 8)
    let nn := b2 ||| (b3 <<< 8)
    let ro := s.roffset + 4
    if nn % 65536 ≠ 65535 - n % 65536 then (hist, .error (.corrupt ro))
    else if rest.length < n then (rest.reverse ++ hist, .error .needInput)
    else ((rest.take n).reverse ++ hist,
          .ok { input := rest.drop n, roffset := ro + n, b := 0, nb := 0 })
  | _ => (hist, .error .needInput)

/-- The fixed Huffman decoder (`fixedHuffmanDecoderInit`). -/
def fixedHuffmanDecoder : huffmanDecoder :=
  (huffmanDecoder_init fixedLengths).getD ⟨0, [], []⟩

/-- The block loop (`nextBlock` and the block it dispatches to). The result is
the output so far (newest first), the output counts at which an empty stored
block made the decompressor release its output (newest first), and `none` once
the final block has ended. -/
def inflateBlocks (symFuel : Nat) :
    Nat → Bits → List Byte → List Nat → List Byte × List Nat × Option Stop
  | 0, _, hist, syncs => (hist, syncs, some .outOfFuel)
  | fuel + 1, s, hist, syncs =>
    match s.need 3 with
    | .error e => (hist, syncs, some e)
    | .ok s0 =>
      let (hdr, s1) := s0.take 3
      let final := hdr % 2 = 1
      let typ := hdr / 2 % 4
      let blk : List Byte × Except Stop Bits :=
        if typ = 0 then dataBlock s1 hist
        else if typ = 1 then huffmanBlock fixedHuffmanDecoder none symFuel s1 hist
        else if typ = 2 then
          match readHuffman s1 with
          | .error e => (hist, .error e)
          | .ok (hl, hd, s2) => huffmanBlock hl (some hd) symFuel s2 hist
        else (hist, .error (.corrupt s1.roffset))
      match blk.2 with
      | .error e => (blk.1, syncs, some e)
      | .ok s2 =>
        let syncs1 := if typ = 0 ∧ blk.1.length = hist.length then hist.length :: syncs else syncs
        if final then (blk.1, syncs1, none) else inflateBlocks symFuel fuel s2 blk.1 syncs1

/-- What the decompressor makes of the compressed bytes seen so far: the
decompressed output, the output counts at which an empty stored block released
the output, and why it stopped (`none`: the final block has ended). -/
structure InflateResult where
  out : List Byte
  syncs : List Nat
  stop : Option Stop
  deriving DecidableEq, Repr

/-- Decompress `input`. Every symbol uses at least one bit and every block at
least three, so `8 * input.length + 8` steps always suffice. -/
def inflate (input : List Byte) : InflateResult :=
  let fuel := 8 * input.length + 8
  let res := inflateBlocks fuel fuel ⟨input, 0, 0, 0⟩ [] []
  ⟨res.1.reverse, res.2.1.reverse, res.2.2⟩

/-! ## flate.Reader, flate.Writer and compressConn -/

/-- The reader returned by `flate.NewReader(r)`: its source, the compressed
bytes pulled from the source so far, the number of decompressed bytes already
handed out, and the error the source has reported. What is decoded is
recomputed from the pulled bytes, which gives the decompressor's state. -/
structure flateReader where
  src : ReadSource
  pulled : List Byte
  delivered : Nat
  srcErr : Option GoError
  deriving DecidableEq, Repr

/-- Go `flate.NewReader(r)`. -/
def flate_NewReader (r : ReadSource) : flateReader :=
  { src := r, pulled := [], delivered := 0, srcErr := none }

/-- The decompressor pulls input through a `bufio.Reader` of 4096 bytes; this is
its `fill`: one `Read` of the source, retried while it returns nothing. -/
def flateReader_fill : Nat → ReadSource → Net → ReadResult × ReadSource × Net
  | 0, src, net => (([], some GoError.ErrNoProgress), src, net)
  | k + 1, src, net =>
    let (res, src1, net1) := src.Read 4096 net
    if res.2 ≠ none ∨ 0 < res.1.length then (res, src1, net1)
    else flateReader_fill k src1 net1

/-- Go `noEOF`: an `io.EOF` in the middle of a stream is unexpected. -/
def noEOF (e : GoError) : GoError :=
  if e = GoError.EOF then GoError.ErrUnexpectedEOF else e

/-- The size of the decompressor's window (`maxMatchOffset`). -/
def flate_windowSize : Nat := 32768

/-- The least of a list of numbers. -/
def leastOf : List Nat → Option Nat
  | [] => none
  | m :: ms =>
    match leastOf ms with
    | none => some m
    | some k => some (min m k)

/-- The next output count at which the decompressor releases output, seen from
`delivered` bytes already handed out of `total` decoded: the window filling up,
an empty stored block, or (`ended`) the end of the stream or an error, which
releases what is left. The flag tells whether the release is that last one,
the only one that comes together with the error. -/
def nextFlush (delivered total : Nat) (syncs : List Nat) (ended : Bool) : Option (Nat × Bool) :=
  let w := (delivered / flate_windowSize + 1) * flate_windowSize
  let cands := syncs.filter (fun m => decide (delivered < m ∧ m ≤ total))
    ++ (if w ≤ total then [w] else [])
  match leastOf cands with
  | some m => some (m, false)
  | none => if ended ∧ delivered < total then some (total, true) else none

/-- Go `Read(p)` of the decompressing reader with `len(p) = n`. Output is handed
out one released piece at a time; a call that takes the rest of the last piece
returns the error with it, as `(*decompressor).Read` does. With nothing
released and no error the decoder pulls from the source. `none` only when
`fuel` pulls were not enough. -/
def flateReader.Read : Nat → flateReader → Nat → Net → Option (ReadResult × flateReader × Net)
  | 0, _, _, _ => none
  | fuel + 1, fr, n, net =>
    let res := inflate fr.pulled
    if res.stop = some Stop.outOfFuel then none
    else
      let err : Option GoError :=
        match res.stop with
        | none => some GoError.EOF
        | some (Stop.corrupt off) => some (GoError.CorruptInput off)
        | some Stop.internalError => some (GoError.other "flate: internal error")
        | some Stop.outOfFuel => none
        | some Stop.needInput => fr.srcErr.map noEOF
      match nextFlush fr.delivered res.out.length res.syncs err.isSome with
      | some (m, last) =>
        let piece := (res.out.drop fr.delivered).take (m - fr.delivered)
        let give := piece.take n
        let fr1 := { fr with delivered := fr.delivered + give.length }
        if give.length = piece.length then some ((give, if last then err else none), fr1, net)
        else some ((give, none), fr1, net)
      | none =>
        match err with
        | some e => some (([], some e), fr, net)
        | none =>
          let (got, src1, net1) := flateReader_fill 100 fr.src net
          flateReader.Read fuel
            { fr with src := src1, pulled := fr.pulled ++ got.1, srcErr := got.2 } n net1

/-- The compression levels of package `flate`. -/
def flate_DefaultCompression : Int := -1

/-- The writer returned by `flate.NewWriter(w, level)`: its destination, the
level, and the plain bytes written to it so far. -/
structure flateWriter where
  dst : ConnRef
  level : Int
  written : List Byte
  deriving DecidableEq, Repr

/-- Go `flate.NewWriter(w, level)`: fails exactly for a level outside `[-2, 9]`. -/
def flate_NewWriter (dst : ConnRef) (level : Int) : Except GoError flateWriter :=
  if level = 0 ∨ level = -2 ∨ level = 1 ∨ level = -1 ∨ (2 ≤ level ∧ level ≤ 9) then
    .ok { dst := dst, level := level, written := [] }
  else .error (GoError.InvalidLevel level)

/-- The compressor itself is a parameter: `emit written b` are the bytes it puts
on its destination when `b` is written after `written`. -/
abbrev Deflater := List Byte → List Byte → List Byte

/-- Go `(*flate.Writer).Write(b)`: the compressor keeps what it has not emitted;
the destination is written only when the compressor emits bytes. -/
def flateWriter.Write (emit : Deflater) (w : flateWriter) (b : List Byte) (net : Net) :
    Option GoError × flateWriter × Net :=
  if emit w.written b = [] then (none, { w with written := w.written ++ b }, net)
  else
    let (e, c1) := (net w.dst).Write (emit w.written b)
    (e, { w with written := w.written ++ b }, Function.update net w.dst c1)

/-- Go `type compressConn struct { net.Conn; r io.ReadCloser; w *flate.Writer }`. -/
structure compressConn where
  Conn : ConnRef
  r : flateReader
  w : flateWriter
  deriving DecidableEq, Repr

/-- Go `func (conn *compressConn) Read(b []byte) (int, error)`. -/
def compressConn.Read (fuel : Nat) (conn : compressConn) (n : Nat) (net : Net) :
    Option (ReadResult × compressConn × Net) :=
  match conn.r.Read fuel n net with
  | none => none
  | some (res, r1, net1) => some (res, { conn with r := r1 }, net1)

/-- Go `func (conn *compressConn) Write(b []byte) (int, error)`. -/
def compressConn.Write (emit : Deflater) (conn : compressConn) (b : List Byte) (net : Net) :
    Option GoError × compressConn × Net :=
  let (e, w1, net1) := conn.w.Write emit b net
  (e, { conn with w := w1 }, net1)

/-- The `io.ReadWriter` values a pipeline is layered on: the raw connection,
a `compressConn`, or a wrapper added by `options.wrapReadWriter`. -/
inductive ReadWriter where
  | netConn (ref : ConnRef)
  | compress (conn : compressConn)
  | wrapped (inner : ReadWriter)
  deriving DecidableEq, Repr

/-- Go `Read` through an `io.ReadWriter`. -/
def ReadWriter.Read (fuel : Nat) : ReadWriter → Nat → Net → Option (ReadResult × ReadWriter × Net)
  | .netConn ref, n, net =>
    let (res, c1) := (net ref).Read n
    some (res, .netConn ref, Function.update net ref c1)
  | .compress conn, n, net =>
    match conn.Read fuel n net with
    | none => none
    | some (res, conn1, net1) => some (res, .compress conn1, net1)
  | .wrapped inner, n, net =>
    match ReadWriter.Read fuel inner n net with
    | none => none
    | some (res, inner1, net1) => some (res, .wrapped inner1, net1)

/-- Go `Write` through an `io.ReadWriter`. -/
def ReadWriter.Write (emit : Deflater) : ReadWriter → List Byte → Net → Option GoError × ReadWriter × Net
  | .netConn ref, b, net =>
    let (e, c1) := (net ref).Write b
    (e, .netConn ref, Function.update net ref c1)
  | .compress conn, b, net =>
    let (e, conn1, net1) := conn.Write emit b net
    (e, .compress conn1, net1)
  | .wrapped inner, b, net =>
    let (e, inner1, net1) := ReadWriter.Write emit inner b net
    (e, .wrapped inner1, net1)

/-! ## bufio.Reader, io.LimitedReader, bytes.Buffer.ReadFrom, io.CopyN -/

/-- A `bufio.Reader`: the reader below it, the buffered unread bytes
(`b.buf[b.r:b.w]`), the buffer size `len(b.buf)` and the pending error. -/
structure bufioReader where
  rd : ReadWriter
  buf : List Byte
  size : Nat
  err : Option GoError
  deriving DecidableEq, Repr

/-- Go `(*bufio.Reader).Buffered()`. -/
def bufioReader.Buffered (b : bufioReader) : Nat := b.buf.length

/-- Go `(*bufio.Reader).Read(p)` with `len(p) = n`. -/
def bufioReader.Read (fuel : Nat) (b : bufioReader) (n : Nat) (net : Net) :
    Option (ReadResult × bufioReader × Net) :=
  if n = 0 then
    if 0 < b.Buffered then some (([], none), b, net)
    else some (([], b.err), { b with err := none }, net)
  else if b.buf = [] then
    if b.err ≠ none then some (([], b.err), { b with err := none }, net)
    else if b.size ≤ n then
      match b.rd.Read fuel n net with
      | none => none
      | some (res, rd1, net1) => some (res, { b with rd := rd1, err := none }, net1)
    else
      match b.rd.Read fuel b.size net with
      | none => none
      | some (res, rd1, net1) =>
        if res.1.length = 0 then some (([], res.2), { b with rd := rd1, err := none }, net1)
        else some ((res.1.take n, none), { b with rd := rd1, buf := res.1.drop n, err := res.2 }, net1)
  else some ((b.buf.take n, none), { b with buf := b.buf.drop n }, net)

/-- Go `(*bufio.Reader).Reset(r)`. -/
def bufioReader.Reset (b : bufioReader) (r : ReadWriter) : bufioReader :=
  { rd := r, buf := [], size := if b.size = 0 then 4096 else b.size, err := none }

/-- Go `io.LimitedReader` over the client's `bufio.Reader`. -/
structure LimitedReader where
  R : bufioReader
  N : Int
  deriving DecidableEq, Repr

/-- Go `(*io.LimitedReader).Read(p)` with `len(p) = n`. -/
def LimitedReader.Read (fuel : Nat) (l : LimitedReader) (n : Nat) (net : Net) :
    Option (ReadResult × LimitedReader × Net) :=
  if l.N ≤ 0 then some (([], some GoError.EOF), l, net)
  else
    let n1 := if (n : Int) > l.N then l.N.toNat else n
    match l.R.Read fuel n1 net with
    | none => none
    | some (res, R1, net1) => some (res, { R := R1, N := l.N - (res.1.length : Int) }, net1)

/-- Go `bytes.MinRead`. -/
def bytes_MinRead : Nat := 512

/-- Go `(*bytes.Buffer).ReadFrom(r)`: reads until `io.EOF`. Each round offers the
spare capacity of the buffer, which is at least `MinRead`; the allocator's
choice beyond that is the parameter `spare`. Returns the buffer content, the
count read and the error; `none` when `rounds` ran out. -/
def bytesBuffer_ReadFrom (spare : Nat → Nat) (fuel : Nat) :
    Nat → List Byte → Nat → LimitedReader → Net →
      Option ((List Byte × Nat × Option GoError) × LimitedReader × Net)
  | 0, _, _, _, _ => none
  | rounds + 1, data, count, r, net =>
    match r.Read fuel (bytes_MinRead + spare data.length) net with
    | none => none
    | some (res, r1, net1) =>
      let data1 := data ++ res.1
      let count1 := count + res.1.length
      match res.2 with
      | some e =>
        if e = GoError.EOF then some ((data1, count1, none), r1, net1)
        else some ((data1, count1, some e), r1, net1)
      | none => bytesBuffer_ReadFrom spare fuel rounds data1 count1 r1 net1

/-- Go `io.CopyN(&buf, src, n)` into an empty `bytes.Buffer`: `io.Copy` from
`io.LimitReader(src, n)`, which uses the buffer's `ReadFrom`. -/
def io_CopyN (spare : Nat → Nat) (fuel rounds : Nat) (src : bufioReader) (n : Int) (net : Net) :
    Option ((List Byte × Int × Option GoError) × bufioReader × Net) :=
  match bytesBuffer_ReadFrom spare fuel rounds [] 0 { R := src, N := n } net with
  | none => none
  | some ((data, written, err), l1, net1) =>
    if (written : Int) = n then some ((data, n, none), l1.R, net1)
    else if (written : Int) < n ∧ err = none then some ((data, written, some GoError.EOF), l1.R, net1)
    else some ((data, written, err), l1.R, net1)

/-! ## bufio.Writer -/

/-- A `bufio.Writer`: the writer below it, the buffered bytes (`b.buf[:b.n]`),
the buffer size and the sticky error. -/
structure bufioWriter where
  wr : ReadWriter
  buf : List Byte
  size : Nat
  err : Option GoError
  deriving DecidableEq, Repr

/-- Go `bufio.NewWriter(w)`. -/
def bufio_NewWriter (w : ReadWriter) : bufioWriter :=
  { wr := w, buf := [], size := 4096, err := none }

/-- Go `(*bufio.Writer).Available()`. -/
def bufioWriter.Available (b : bufioWriter) : Nat := b.size - b.buf.length

/-- Go `(*bufio.Writer).Flush()`. -/
def bufioWriter.Flush (emit : Deflater) (b : bufioWriter) (net : Net) :
    Option GoError × bufioWriter × Net :=
  if b.err ≠ none then (b.err, b, net)
  else if b.buf = [] then (none, b, net)
  else
    let (e, wr1, net1) := b.wr.Write emit b.buf net
    match e with
    | some err => (some err, { b with wr := wr1, err := some err }, net1)
    | none => (none, { b with wr := wr1, buf := [] }, net1)

/-- The loop of `(*bufio.Writer).Write`: while `p` does not fit, either write
it through directly (empty buffer) or fill the buffer and flush. -/
def bufioWriter.WriteLoop (emit : Deflater) :
    Nat → bufioWriter → List Byte → Net → bufioWriter × List Byte × Net
  | 0, b, p, net => (b, p, net)
  | k + 1, b, p, net =>
    if p.length > b.Available ∧ b.err = none then
      if b.buf.length = 0 then
        let (e, wr1, net1) := b.wr.Write emit p net
        match e with
        | none => bufioWriter.WriteLoop emit k { b with wr := wr1 } [] net1
        | some err => bufioWriter.WriteLoop emit k { b with wr := wr1, err := some err } p net1
      else
        let b1 := { b with buf := b.buf ++ p.take b.Available }
        let (_, b2, net1) := b1.Flush emit net
        bufioWriter.WriteLoop emit k b2 (p.drop b.Available) net1
    else (b, p, net)

/-- Go `(*bufio.Writer).Write(p)`. -/
def bufioWriter.Write (emit : Deflater) (b : bufioWriter) (p : List Byte) (net : Net) :
    Option GoError × bufioWriter × Net :=
  let (b1, p1, net1) := bufioWriter.WriteLoop emit (p.length + 2) b p net
  if b1.err ≠ none then (b1.err, b1, net1)
  else (none, { b1 with buf := b1.buf ++ p1.take b1.Available }, net1)

/-! ## Client and upgradeCompress -/

/-- The part of `Options` used here: `wrapReadWriter`, which is not defined in
`compress.go` and is taken as a parameter. -/
structure Options where
  wrapReadWriter : ReadWriter → ReadWriter

/-- The fields of `Client` that `compress.go` touches. -/
structure Client where
  conn : ConnRef
  br : bufioReader
  bw : bufioWriter
  options : Options

/-- How a Go function ends in this model. -/
inductive Outcome (α : Type) where
  | ok (a : α)
  | panic (e : GoError)
  | outOfFuel

/-- The drain step of `upgradeCompress`:
`io.CopyN(&buf, c.br, int64(c.br.Buffered()))`. -/
def upgradeCompress_drain (spare : Nat → Nat) (fuel rounds : Nat) (c : Client) (net : Net) :
    Option ((List Byte × Int × Option GoError) × bufioReader × Net) :=
  io_CopyN spare fuel rounds c.br (c.br.Buffered : Int) net

/-- The read source chosen by `upgradeCompress` for the drained bytes `buf`. -/
def upgradeCompress_source (buf : List Byte) (conn : ConnRef) : ReadSource :=
  if 0 < buf.length then ReadSource.multi [SrcReader.buffer buf, SrcReader.conn conn]
  else ReadSource.direct conn

/-- Go `func (c *Client) upgradeCompress()`. -/
def Client.upgradeCompress (spare : Nat → Nat) (fuel rounds : Nat) (c : Client) (net : Net) :
    Outcome (Client × Net) :=
  match upgradeCompress_drain spare fuel rounds c net with
  | none => .outOfFuel
  | some ((buf, _, err), br1, net1) =>
    match err with
    | some e => .panic e
    | none =>
      let r := upgradeCompress_source buf c.conn
      match flate_NewWriter c.conn flate_DefaultCompression with
      | .error e => .panic e
      | .ok w =>
        let conn : compressConn := { Conn := c.conn, r := flate_NewReader r, w := w }
        let rw := c.options.wrapReadWriter (ReadWriter.compress conn)
        .ok ({ c with br := br1.Reset rw, bw := bufio_NewWriter rw }, net1)

/-! ## Client.CompressDeflate -/

/-- Go `type CompressDeflateOptions struct{}`. -/
structure CompressDeflateOptions where
  deriving DecidableEq, Repr

/-- The bytes of an ASCII string. -/
def ascii (s : String) : List Byte := s.toList.map Char.toNat

/-- Modelled from the spec: `Client.beginCommand` is not in `compress.go`. It
starts a tagged command: the tag, a space and the command name go to the
currently active writer `c.bw`. -/
def Client.beginCommand (emit : Deflater) (tag : List Byte) (name : String) (c : Client) (net : Net) :
    Client × Net :=
  let (_, bw1, net1) := c.bw.Write emit (tag ++ ascii " " ++ ascii name) net
  ({ c with bw := bw1 }, net1)

/-- Modelled from the spec: the encoder's `SP` is not in `compress.go`. It
writes one space to the active writer. -/
def enc_SP (emit : Deflater) (c : Client) (net : Net) : Client × Net :=
  let (_, bw1, net1) := c.bw.Write emit (ascii " ") net
  ({ c with bw := bw1 }, net1)

/-- Modelled from the spec: the encoder's `Atom` is not in `compress.go`. It
writes the bare token to the active writer. -/
def enc_Atom (emit : Deflater) (atom : String) (c : Client) (net : Net) : Client × Net :=
  let (_, bw1, net1) := c.bw.Write emit (ascii atom) net
  ({ c with bw := bw1 }, net1)

/-- Modelled from the spec: the encoder's `flush` is not in `compress.go`. It
ends the command line and flushes the active writer. -/
def enc_flush (emit : Deflater) (c : Client) (net : Net) : Client × Net :=
  let (_, bw1, net1) := c.bw.Write emit (ascii "\r\n") net
  let (_, bw2, net2) := bw1.Flush emit net1
  ({ c with bw := bw2 }, net2)

/-- Modelled from the spec: the encoder's `end` is not in `compress.go`. It
releases the encoder of a command that was already flushed; it writes nothing. -/
def enc_end (c : Client) (net : Net) : Client × Net := (c, net)

/-- Where the goroutine running `CompressDeflate` stands. -/
inductive Pc where
  | entry
  | sp
  | atom
  | flush
  | wait
  | recv
  | done (ret : Option GoError)
  deriving DecidableEq, Repr

/-- What happens during a run: the calls `CompressDeflate` makes, in order, and
the two signals raised by the response-reading goroutine. -/
inductive Event where
  | beginCommand (name : String)
  | SP
  | Atom (s : String)
  | flush
  | waitReturned (err : Option GoError)
  | recvUpgradeDone
  | encEnd
  | ret (err : Option GoError)
  | outcomeSignal (err : Option GoError)
  | installedSignal
  deriving DecidableEq, Repr

/-- One call of `CompressDeflate` in its environment: the client and network,
the two one-shot signals (`cmdOutcome`: the value `cmd.Wait` returns once the
tagged response has arrived; `upgradeDone`: the channel has fired), the program
point and the events so far. -/
structure Session where
  client : Client
  net : Net
  tag : List Byte
  options : Option CompressDeflateOptions
  cmdOutcome : Option (Option GoError)
  upgradeDone : Bool
  pc : Pc
  trace : List Event

/-- The state at the call `c.CompressDeflate(options)`. -/
def CompressDeflate_start (c : Client) (net : Net) (tag : List Byte)
    (options : Option CompressDeflateOptions) : Session :=
  { client := c, net := net, tag := tag, options := options, cmdOutcome := none,
    upgradeDone := false, pc := Pc.entry, trace := [] }

/-- One step of `func (c *Client) CompressDeflate(options) error`. A blocked
receive leaves the state as it is; the deferred `enc.end()` runs at the return. -/
def CompressDeflate_step (emit : Deflater) (s : Session) : Session :=
  match s.pc with
  | .entry =>
    { s with client := (s.client.beginCommand emit s.tag "COMPRESS" s.net).1,
             net := (s.client.beginCommand emit s.tag "COMPRESS" s.net).2,
             pc := .sp, trace := s.trace ++ [.beginCommand "COMPRESS"] }
  | .sp =>
    { s with client := (enc_SP emit s.client s.net).1, net := (enc_SP emit s.client s.net).2,
             pc := .atom, trace := s.trace ++ [.SP] }
  | .atom =>
    { s with client := (enc_Atom emit "DEFLATE" s.client s.net).1,
             net := (enc_Atom emit "DEFLATE" s.client s.net).2,
             pc := .flush, trace := s.trace ++ [.Atom "DEFLATE"] }
  | .flush =>
    { s with client := (enc_flush emit s.client s.net).1, net := (enc_flush emit s.client s.net).2,
             pc := .wait, trace := s.trace ++ [.flush] }
  | .wait =>
    match s.cmdOutcome with
    | none => s
    | some (some err) =>
      { s with client := (enc_end s.client s.net).1, net := (enc_end s.client s.net).2,
               pc := .done (some err),
               trace := s.trace ++ [.waitReturned (some err), .encEnd, .ret (some err)] }
    | some none => { s with pc := .recv, trace := s.trace ++ [.waitReturned none] }
  | .recv =>
    if s.upgradeDone then
      { s with client := (enc_end s.client s.net).1, net := (enc_end s.client s.net).2,
               pc := .done none,
               trace := s.trace ++ [.recvUpgradeDone, .encEnd, .ret none] }
    else s
  | .done _ => s

/-- Who moves next: the calling goroutine, or the response reader delivering
the negotiation outcome or firing the installed signal. -/
inductive Tick where
  | thread
  | outcome (err : Option GoError)
  | installed
  deriving DecidableEq, Repr

/-- One scheduling step. The outcome of a command is set once. -/
def Session.step (emit : Deflater) (s : Session) : Tick → Session
  | .thread => CompressDeflate_step emit s
  | .outcome err =>
    match s.cmdOutcome with
    | none => { s with cmdOutcome := some err, trace := s.trace ++ [.outcomeSignal err] }
    | some _ => s
  | .installed => { s with upgradeDone := true, trace := s.trace ++ [.installedSignal] }

/-- Run a schedule. -/
def Session.run (emit : Deflater) (s : Session) (sched : List Tick) : Session :=
  sched.foldl (Session.step emit) s

/-- A `ReadWriter` that reaches connection `ref` without a codec in between. -/
def ReadWriter.isRaw (ref : ConnRef) : ReadWriter → Bool
  | .netConn r => decide (r = ref)
  | .compress _ => false
  | .wrapped inner => ReadWriter.isRaw ref inner

/-- The command text sent by the events between `beginCommand` and `flush`. -/
def commandText : List Event → List Byte
  | [] => []
  | .beginCommand name :: es => ascii name ++ commandText es
  | .SP :: es => ascii " " ++ commandText es
  | .Atom a :: es => ascii a ++ commandText es
  | _ :: es => commandText es

/-! ## Measuring a read source -/

/-- The bytes a connection still has to deliver. -/
def ConnState.pending (c : ConnState) : List Byte := c.inbound.flatten

/-- Upper bound on the `Read` calls needed to exhaust a connection. -/
def ConnState.cost (c : ConnState) : Nat := (c.inbound.map (fun seg => seg.length + 1)).sum

/-- The bytes a leaf reader still has to deliver. -/
def SrcReader.content (net : Net) : SrcReader → List Byte
  | .buffer data => data
  | .conn ref => (net ref).pending

/-- Upper bound on the `Read` calls a leaf reader still answers with data. -/
def SrcReader.cost (net : Net) : SrcReader → Nat
  | .buffer data => data.length
  | .conn ref => (net ref).cost

/-- The bytes a read source still has to deliver. -/
def ReadSource.content (net : Net) : ReadSource → List Byte
  | .direct ref => (net ref).pending
  | .multi readers => (readers.map (SrcReader.content net)).flatten

/-- Upper bound on the `Read` calls a read source still answers with data. -/
def ReadSource.cost (net : Net) : ReadSource → Nat
  | .direct ref => (net ref).cost
  | .multi readers => (readers.map (SrcReader.cost net)).sum + readers.length

/-- The read sources that `upgradeCompress` builds over connection `ref`, and
the states they pass through while being read. -/
def ReadSource.replays (ref : ConnRef) : ReadSource → Bool
  | .direct r => decide (r = ref)
  | .multi [] => true
  | .multi [.conn r] => decide (r = ref)
  | .multi [.buffer _, .conn r] => decide (r = ref)
  | .multi _ => false

/-! ## Concrete inputs -/

/-- A network in which connection 0 will deliver "OK" in two segments. -/
def exampleNet : Net := fun _ => { inbound := [[79], [75]], outbound := [], reads := 0, writes := 0 }

/-- A client on connection 0 whose reader holds the two bytes "A1". -/
def exampleClient : Client :=
  { conn := 0,
    br := { rd := .netConn 0, buf := [65, 49], size := 4096, err := none },
    bw := { wr := .netConn 0, buf := [], size := 4096, err := none },
    options := { wrapReadWriter := fun rw => rw } }

/-- A network in which connection 0 will deliver further bytes of the peer. -/
def scenarioNet : Net := fun _ => { inbound := [[42, 32, 79, 75]], outbound := [], reads := 0, writes := 0 }

/-- The concrete scenario: the reader holds "A001 X\r\n" beyond the
acknowledgment line when the upgrade runs. -/
def scenarioClient : Client :=
  { conn := 0,
    br := { rd := .netConn 0, buf := ascii "A001 X\r\n", size := 4096, err := none },
    bw := { wr := .netConn 0, buf := [], size := 4096, err := none },
    options := { wrapReadWriter := fun rw => rw } }

/-- The `compressConn` that `upgradeCompress` installs for `scenarioClient`. -/
def scenarioConn : compressConn :=
  { Conn := 0,
    r := flate_NewReader (upgradeCompress_source (ascii "A001 X\r\n") 0),
    w := { dst := 0, level := flate_DefaultCompression, written := [] } }

/-! ## Invariants of a run of CompressDeflate -/

/-- The events that are calls made by `CompressDeflate` (not signals). -/
def Event.isCall : Event → Bool
  | .outcomeSignal _ => false
  | .installedSignal => false
  | _ => true

/-- The calls `CompressDeflate` has made when it stands at a program point. -/
def callsAt : Pc → List Event
  | .entry => []
  | .sp => [.beginCommand "COMPRESS"]
  | .atom => [.beginCommand "COMPRESS", .SP]
  | .flush => [.beginCommand "COMPRESS", .SP, .Atom "DEFLATE"]
  | .wait => [.beginCommand "COMPRESS", .SP, .Atom "DEFLATE", .flush]
  | .recv => [.beginCommand "COMPRESS", .SP, .Atom "DEFLATE", .flush, .waitReturned none]
  | .done (some e) =>
    [.beginCommand "COMPRESS", .SP, .Atom "DEFLATE", .flush, .waitReturned (some e), .encEnd,
      .ret (some e)]
  | .done none =>
    [.beginCommand "COMPRESS", .SP, .Atom "DEFLATE", .flush, .waitReturned none,
      .recvUpgradeDone, .encEnd, .ret none]

/-- The command bytes handed to the writer when `CompressDeflate` stands at a
program point. -/
def sentAt (tag : List Byte) : Pc → List Byte
  | .entry => []
  | .sp => tag ++ ascii " " ++ ascii "COMPRESS"
  | .atom => tag ++ ascii " " ++ ascii "COMPRESS" ++ ascii " "
  | .flush => tag ++ ascii " " ++ ascii "COMPRESS" ++ ascii " " ++ ascii "DEFLATE"
  | _ => tag ++ ascii " " ++ ascii "COMPRESS" ++ ascii " " ++ ascii "DEFLATE" ++ ascii "\r\n"

/-- Whether the command has been flushed at a program point. -/
def Pc.flushed : Pc → Bool
  | .wait => true
  | .recv => true
  | .done _ => true
  | _ => false

/-- What holds in every state of a run started on client `c` with tag `tag`. -/
structure Session.Inv (c : Client) (tag : List Byte) (s : Session) : Prop where
  calls : s.trace.filter Event.isCall = callsAt s.pc
  atRecv : s.pc = .recv → s.cmdOutcome = some none
  atDone : ∀ r, s.pc = .done r → s.cmdOutcome = some r
  fired : s.upgradeDone = true ↔ Event.installedSignal ∈ s.trace
  arrived : ∀ e, s.cmdOutcome = some e → Event.outcomeSignal e ∈ s.trace
  ordered : s.pc = .done none → ∃ pre post,
    s.trace = pre ++ Event.recvUpgradeDone :: Event.encEnd :: Event.ret none :: post ∧
    Event.installedSignal ∈ pre ∧ Event.outcomeSignal none ∈ pre ∧
    post.filter Event.isCall = []
  br_eq : s.client.br = c.br
  conn_eq : s.client.conn = c.conn
  tag_eq : s.tag = tag

/-- What holds in addition when the client's writer is raw and without error. -/
structure Session.RawInv (c : Client) (net : Net) (tag : List Byte) (s : Session) : Prop where
  wr_eq : s.client.bw.wr = c.bw.wr
  err_eq : s.client.bw.err = none
  wire : (s.net c.conn).outbound ++ s.client.bw.buf
    = (net c.conn).outbound ++ c.bw.buf ++ sentAt tag s.pc
  flushed : s.pc.flushed = true → s.client.bw.buf = []

/-- A schedule that lets a successful upgrade run to its return. -/
def successSchedule : List Tick :=
  [.thread, .thread, .thread, .thread, .outcome none, .thread, .installed, .thread]

/-- A schedule in which the peer rejects the upgrade. -/
def failureSchedule : List Tick :=
  [.thread, .thread, .thread, .thread, .outcome (some (GoError.other "NO")), .thread]

/-- What a caller does to send `b`: `Write` it to the `bufio.Writer` and `Flush`.
Returns the network afterwards. -/
def writeThenFlush (emit : Deflater) (bw : bufioWriter) (b : List Byte) (net : Net) : Net :=
  ((bw.Write emit b net).2.1.Flush emit (bw.Write emit b net).2.2).2.2

/-- The states a `bufio.Writer` reaches from `b` by calls of `Write` and `Flush`
alone: the same writer object after use, never a replaced one. -/
inductive bufioWriter.UsedFrom (emit : Deflater) (b : bufioWriter) : bufioWriter → Prop where
  | refl : bufioWriter.UsedFrom emit b b
  | write {b1 : bufioWriter} (h : bufioWriter.UsedFrom emit b b1) (p : List Byte) (net : Net) :
      bufioWriter.UsedFrom emit b (b1.Write emit p net).2.1
  | flush {b1 : bufioWriter} (h : bufioWriter.UsedFrom emit b b1) (net : Net) :
      bufioWriter.UsedFrom emit b (b1.Flush emit net).2.1

/-- How far `CompressDeflate` has come in sending its command: the number of
encoder calls made, four once the command is flushed. -/
def Pc.rank : Pc → Nat
  | .entry => 0
  | .sp => 1
  | .atom => 2
  | .flush => 3
  | _ => 4

/-! ## Theorems: compressConn.Close -/

/-- C1. Evaluation of `compressConn.Close` when the read-side close fails: the
call returns that error at once, and neither the write side nor the underlying
connection receives a close call. -/
theorem C1_close_stops_at_first_failure :
    (compressConn_Close (freshLayers (some (GoError.other "r")) none none)).1
        = some (GoError.other "r") ∧
      (compressConn_Close (freshLayers (some (GoError.other "r")) none none)).2.r.calls = 1 ∧
      (compressConn_Close (freshLayers (some (GoError.other "r")) none none)).2.w.calls = 0 ∧
      (compressConn_Close (freshLayers (some (GoError.other "r")) none none)).2.Conn.calls = 0 ∧
      (compressConn_Close (freshLayers (some (GoError.other "r")) none none)).2.order
        = [Layer.r] := by
  decide

/-- C5. `compressConn.Close` closes in the fixed order read side, write side,
connection: the layers closed by a call are an initial segment of that order,
starting with the read side, and no layer is closed more than once. When the
read-side and write-side closes both succeed, all three layers are closed
exactly once, in that order, and the result is the result of the underlying
connection's `Close`. -/
theorem C5_close_order (conn : CloseLayers) :
    (∃ k, 1 ≤ k ∧ (compressConn_Close conn).2.order
        = conn.order ++ [Layer.r, Layer.w, Layer.Conn].take k) ∧
      (compressConn_Close conn).2.r.calls = conn.r.calls + 1 ∧
      (compressConn_Close conn).2.w.calls ≤ conn.w.calls + 1 ∧
      (compressConn_Close conn).2.Conn.calls ≤ conn.Conn.calls + 1 ∧
      (conn.r.result = none → conn.w.result = none →
        (compressConn_Close conn).2.order = conn.order ++ [Layer.r, Layer.w, Layer.Conn] ∧
        (compressConn_Close conn).2.w.calls = conn.w.calls + 1 ∧
        (compressConn_Close conn).2.Conn.calls = conn.Conn.calls + 1 ∧
        (compressConn_Close conn).1 = conn.Conn.result) := by
  obtain ⟨⟨er, nr⟩, ⟨ew, nw⟩, ⟨ec, nc⟩, order⟩ := conn
  cases er with
  | some e =>
    refine ⟨⟨1, le_refl 1, ?_⟩, ?_, ?_, ?_, ?_⟩ <;> simp [compressConn_Close, Closer.Close]
  | none =>
    cases ew with
    | some e =>
      refine ⟨⟨2, by omega, ?_⟩, ?_, ?_, ?_, ?_⟩ <;> simp [compressConn_Close, Closer.Close]
    | none =>
      refine ⟨⟨3, by omega, ?_⟩, ?_, ?_, ?_, ?_⟩ <;> simp [compressConn_Close, Closer.Close]

/-- Witness for C5: both inner closes succeed and the connection's close fails. -/
theorem C5_close_order_witness :
    (compressConn_Close (freshLayers none none (some GoError.EOF))).2.order
        = [Layer.r, Layer.w, Layer.Conn] ∧
      (compressConn_Close (freshLayers none none (some GoError.EOF))).1 = some GoError.EOF := by
  have h := (C5_close_order (freshLayers none none (some GoError.EOF))).2.2.2.2 rfl rfl
  exact ⟨by simpa [freshLayers] using h.1, by simpa [freshLayers] using h.2.2.2⟩

/-! ## Theorems: the drain step -/

/-- Reading through the limited reader when the limit equals the number of
buffered bytes: every round is served from the buffer alone. -/
theorem readFrom_buffered (spare : Nat → Nat) (fuel : Nat) (net : Net) :
    ∀ (rounds : Nat) (R : bufioReader) (data : List Byte) (count : Nat),
      R.buf.length + 1 ≤ rounds →
      bytesBuffer_ReadFrom spare fuel rounds data count { R := R, N := (R.buf.length : Int) } net
        = some ((data ++ R.buf, count + R.buf.length, none),
                { R := { R with buf := [] }, N := 0 }, net) := by
  intro rounds
  induction rounds with
  | zero => intro R data count h; omega
  | succ k ih =>
    intro R data count h
    obtain ⟨rd, buf, size, err⟩ := R
    cases hb : buf with
    | nil =>
      simp [bytesBuffer_ReadFrom, LimitedReader.Read]
    | cons x xs =>
      subst hb
      simp only [List.length_cons] at h
      obtain ⟨p, hp⟩ : ∃ p, p = bytes_MinRead + spare data.length := ⟨_, rfl⟩
      have hppos : 0 < p := by simp [hp, bytes_MinRead]
      obtain ⟨n1, hn1⟩ : ∃ n1, n1 = if (p : Int) > ((x :: xs).length : Int) then
          (((x :: xs).length : Int)).toNat else p := ⟨_, rfl⟩
      have hn1pos : 0 < n1 := by
        simp only [hn1]
        split
        · simp
        · exact hppos
      have hle : n1 ≤ (x :: xs).length := by
        simp only [hn1]
        split
        · simp
        · rename_i hgt
          push_neg at hgt
          exact_mod_cast hgt
      have hrd : LimitedReader.Read fuel { R := ⟨rd, x :: xs, size, err⟩, N := ((x :: xs).length : Int) } p net
          = some (((x :: xs).take n1, none),
              { R := ⟨rd, (x :: xs).drop n1, size, err⟩,
                N := (((x :: xs).drop n1).length : Int) }, net) := by
        have hN : ¬ (((x :: xs).length : Int) ≤ 0) := by simp
        simp only [LimitedReader.Read, hN, if_false, ← hn1]
        have hne : n1 ≠ 0 := by omega
        simp only [bufioReader.Read, hne, if_false]
        simp only [List.length_take, List.length_drop]
        have : ((min n1 (x :: xs).length : Nat) : Int) = n1 := by
          rw [Nat.min_eq_left hle]
        simp [this]
        omega
      rw [bytesBuffer_ReadFrom]
      simp only [← hp]
      rw [hrd]
      simp only
      have hlen : ((x :: xs).drop n1).length + 1 ≤ k := by
        rw [List.length_drop]
        have h2 : (x :: xs).length = xs.length + 1 := rfl
        omega
      have := ih ⟨rd, (x :: xs).drop n1, size, err⟩ (data ++ (x :: xs).take n1)
        (count + ((x :: xs).take n1).length) hlen
      simp only at this
      rw [this]
      simp only [List.append_assoc, List.take_append_drop, List.length_take, List.length_drop]
      have h3 : count + min n1 (x :: xs).length + ((x :: xs).length - n1)
          = count + (x :: xs).length := by omega
      simp only [Nat.add_assoc] at h3 ⊢
      rw [h3]

/-- The drain step copies exactly the buffered bytes and touches nothing else. -/
theorem drain_result (spare : Nat → Nat) (fuel k : Nat) (c : Client) (net : Net) :
    upgradeCompress_drain spare fuel (c.br.Buffered + 1 + k) c net
      = some ((c.br.buf, (c.br.Buffered : Int), none), { c.br with buf := [] }, net) := by
  have h := readFrom_buffered spare fuel net (c.br.Buffered + 1 + k) c.br [] 0
    (by simp [bufioReader.Buffered])
  simp only [upgradeCompress_drain, io_CopyN, bufioReader.Buffered] at h ⊢
  rw [h]
  simp

/-- C10. For every state of `c.br` (any buffered bytes, any pending error, any
reader below it) and every network state, the drain step of `upgradeCompress`
returns without error after copying exactly the buffered bytes, leaves `c.br`
with nothing buffered, and leaves every connection as it was (no `Read` reaches
the connection); so the panic branch is not taken. `flate.NewWriter` with
`flate.DefaultCompression` returns no error either. -/
theorem C10_drain_never_fails (spare : Nat → Nat) (fuel k : Nat) (c : Client) (net : Net)
    (dst : ConnRef) :
    upgradeCompress_drain spare fuel (c.br.Buffered + 1 + k) c net
        = some ((c.br.buf, (c.br.Buffered : Int), none), { c.br with buf := [] }, net) ∧
      ({ c.br with buf := [] } : bufioReader).Buffered = 0 ∧
      flate_NewWriter dst flate_DefaultCompression
        = .ok { dst := dst, level := flate_DefaultCompression, written := [] } := by
  exact ⟨drain_result spare fuel k c net, rfl, by simp [flate_NewWriter, flate_DefaultCompression]⟩

/-! ## Theorems: the read source -/

/-- One `Read` of a connection with a non-empty buffer `p`: either the peer is
done, or the call hands over a prefix of what is pending and the cost drops. -/
theorem conn_read_step (c : ConnState) (n : Nat) (hn : 0 < n) :
    ((c.Read n).1 = ([], some GoError.EOF) ∧ c.pending = [] ∧ (c.Read n).2.pending = []) ∨
      ((c.Read n).1.2 = none ∧ c.pending = (c.Read n).1.1 ++ (c.Read n).2.pending ∧
        (c.Read n).2.cost < c.cost) := by
  obtain ⟨inbound, outbound, reads, writes⟩ := c
  cases inbound with
  | nil => left; simp [ConnState.Read, ConnState.pending]
  | cons seg rest =>
    right
    simp only [ConnState.Read, ConnState.pending, ConnState.cost]
    refine ⟨trivial, ?_, ?_⟩
    · by_cases hd : seg.drop n = []
      · simp only [hd, if_true, List.flatten_cons]
        have : seg.take n = seg := by
          have := List.take_append_drop n seg
          rw [hd, List.append_nil] at this
          exact this
        rw [this]
      · simp only [hd, if_false, List.flatten_cons, ← List.append_assoc, List.take_append_drop]
    · by_cases hd : seg.drop n = []
      · simp only [hd, if_true, List.map_cons, List.sum_cons]
        omega
      · simp only [hd, if_false, List.map_cons, List.sum_cons, List.length_drop]
        have : seg.length ≠ 0 := by
          intro h0
          apply hd
          rw [List.length_eq_zero.mp h0]
          simp
        omega

/-- One `Read` of a read source built by `upgradeCompress`, with a non-empty
`p`: either the source is exhausted, or the call hands over a prefix of the
remaining content, keeps the shape and lowers the cost. -/
theorem source_read_step (ref : ConnRef) (s : ReadSource) (net : Net) (n : Nat) (hn : 0 < n)
    (hs : s.replays ref = true) :
    ((s.Read n net).1 = ([], some GoError.EOF) ∧ s.content net = []) ∨
      ((s.Read n net).1.2 = none ∧
        s.content net = (s.Read n net).1.1 ++ (s.Read n net).2.1.content (s.Read n net).2.2 ∧
        (s.Read n net).2.1.cost (s.Read n net).2.2 < s.cost net ∧
        (s.Read n net).2.1.replays ref = true) := by
  have hn0 : n ≠ 0 := by omega
  -- the three situations of a connection read, reused below
  have conn_case : ∀ r : ConnRef, r = ref →
      (((net r).Read n).1 = ([], some GoError.EOF) ∧ (net r).pending = []) ∨
      (((net r).Read n).1.2 = none ∧
        (net r).pending = ((net r).Read n).1.1 ++ ((net r).Read n).2.pending ∧
        ((net r).Read n).2.cost < (net r).cost) := by
    intro r _
    rcases conn_read_step (net r) n hn with h | h
    · exact Or.inl ⟨h.1, h.2.1⟩
    · exact Or.inr h
  cases s with
  | direct r =>
    simp only [ReadSource.replays, decide_eq_true_eq] at hs
    rcases conn_case r hs with h | h
    · left
      simp only [ReadSource.Read, ReadSource.content]
      exact h
    · right
      simp only [ReadSource.Read, ReadSource.content, ReadSource.cost, ReadSource.replays,
        Function.update_same, decide_eq_true_eq]
      exact ⟨h.1, h.2.1, h.2.2, hs⟩
  | multi readers =>
    match readers, hs with
    | [], _ =>
      left
      simp [ReadSource.Read, multiReader_Read, ReadSource.content]
    | [.conn r], hs =>
      simp only [ReadSource.replays, decide_eq_true_eq] at hs
      rcases conn_case r hs with h | h
      · left
        simp only [ReadSource.Read, multiReader_Read, SrcReader.Read, ReadSource.content, h.1]
        simp [SrcReader.content, h.2]
      · right
        obtain ⟨h1, h2, h3⟩ := h
        have hne : ((net r).Read n).1.2 ≠ some GoError.EOF := by rw [h1]; simp
        simp only [ReadSource.Read, multiReader_Read, SrcReader.Read, hne, if_false, or_true,
          if_true, false_and, ReadSource.content, ReadSource.cost, ReadSource.replays,
          List.map_cons, List.map_nil, SrcReader.content, SrcReader.cost, Function.update_same,
          List.flatten_cons, List.flatten_nil, List.append_nil, List.sum_cons, List.sum_nil,
          List.length_cons, List.length_nil, decide_eq_true_eq, ne_eq, not_false_eq_true]
        exact ⟨h1, h2, by omega, hs⟩
    | [.buffer d, .conn r], hs =>
      simp only [ReadSource.replays, decide_eq_true_eq] at hs
      by_cases hd : d = []
      · subst hd
        rcases conn_case r hs with h | h
        · left
          simp only [ReadSource.Read, multiReader_Read, SrcReader.Read, bytesBuffer_Read,
            ReadSource.content, hn0, h.1]
          simp [SrcReader.content, h.2]
        · right
          obtain ⟨h1, h2, h3⟩ := h
          have hne : ((net r).Read n).1.2 ≠ some GoError.EOF := by rw [h1]; simp
          simp only [ReadSource.Read, multiReader_Read, SrcReader.Read, bytesBuffer_Read, hn0,
            hne, if_false, or_true, if_true, false_and, ReadSource.content, ReadSource.cost,
            ReadSource.replays, List.map_cons, List.map_nil, SrcReader.content, SrcReader.cost,
            Function.update_same, List.flatten_cons, List.flatten_nil, List.append_nil,
            List.sum_cons, List.sum_nil, List.length_cons, List.length_nil, decide_eq_true_eq,
            ne_eq, not_false_eq_true, List.nil_append, lt_self_iff_false, or_false, not_true_eq_false]
          exact ⟨h1, h2, by omega, hs⟩
      · right
        have hlen : d.length ≠ 0 := fun h0 => hd (List.length_eq_zero.mp h0)
        simp only [ReadSource.Read, multiReader_Read, SrcReader.Read, bytesBuffer_Read, hd,
          if_false, ReadSource.content, ReadSource.cost, ReadSource.replays, List.map_cons,
          List.map_nil, SrcReader.content, SrcReader.cost, List.flatten_cons, List.flatten_nil,
          List.append_nil, List.sum_cons, List.sum_nil, List.length_cons, List.length_nil,
          decide_eq_true_eq, ne_eq, not_false_eq_true, or_true, if_true, false_and,
          List.length_drop, reduceCtorEq]
        refine ⟨trivial, ?_, by omega, hs⟩
        rw [← List.append_assoc, List.take_append_drop]

/-- Reading a source built by `upgradeCompress` to the end, with non-empty
buffers and enough calls, yields its content and then `io.EOF`. -/
theorem readAll_content (ref : ConnRef) :
    ∀ (sizes : List Nat) (s : ReadSource) (net : Net),
      (∀ n ∈ sizes, 0 < n) → s.replays ref = true → s.cost net + 1 ≤ sizes.length →
      (ReadSource.readAll sizes s net).1 = (s.content net, some GoError.EOF) := by
  intro sizes
  induction sizes with
  | nil => intro s net _ _ h; simp at h
  | cons n sizes ih =>
    intro s net hpos hs hcost
    have hn : 0 < n := hpos n (List.mem_cons_self _ _)
    rcases source_read_step ref s net n hn hs with h | h
    · obtain ⟨h1, h2⟩ := h
      rw [ReadSource.readAll]
      have : (s.Read n net).1.2 = some GoError.EOF := by rw [h1]
      simp only [this]
      rw [h2]
      have : (s.Read n net).1.1 = [] := by rw [h1]
      rw [this]
    · obtain ⟨h1, h2, h3, h4⟩ := h
      rw [ReadSource.readAll]
      simp only [h1]
      have := ih (s.Read n net).2.1 (s.Read n net).2.2
        (fun m hm => hpos m (List.mem_cons_of_mem _ hm)) h4
        (by simp only [List.length_cons] at hcost; omega)
      rw [this, h2]

/-- However many reads are made, what a source built by `upgradeCompress` has
handed over so far is an initial part of its content. -/
theorem readAll_prefix (ref : ConnRef) :
    ∀ (sizes : List Nat) (s : ReadSource) (net : Net),
      (∀ n ∈ sizes, 0 < n) → s.replays ref = true →
      (ReadSource.readAll sizes s net).1.1 <+: s.content net := by
  intro sizes
  induction sizes with
  | nil => intro s net _ _; exact List.nil_prefix
  | cons n sizes ih =>
    intro s net hpos hs
    have hn : 0 < n := hpos n (List.mem_cons_self _ _)
    rcases source_read_step ref s net n hn hs with h | h
    · obtain ⟨h1, h2⟩ := h
      rw [ReadSource.readAll]
      have : (s.Read n net).1.2 = some GoError.EOF := by rw [h1]
      simp only [this]
      have : (s.Read n net).1.1 = [] := by rw [h1]
      rw [this]
      exact List.nil_prefix
    · obtain ⟨h1, h2, _, h4⟩ := h
      rw [ReadSource.readAll]
      simp only [h1]
      have := ih (s.Read n net).2.1 (s.Read n net).2.2
        (fun m hm => hpos m (List.mem_cons_of_mem _ hm)) h4
      rw [h2]
      exact (List.prefix_append_right_inj _).mpr this

/-- What `upgradeCompress` returns: the drained bytes go into the read source of
a new `compressConn` over the same connection, and both `c.br` and `c.bw` are put
on the wrapper that `options.wrapReadWriter` makes of it. -/
theorem upgradeCompress_result (spare : Nat → Nat) (fuel k : Nat) (c : Client) (net : Net) :
    Client.upgradeCompress spare fuel (c.br.Buffered + 1 + k) c net
      = .ok ({ c with
                br := { rd := c.options.wrapReadWriter (.compress
                          { Conn := c.conn,
                            r := flate_NewReader (upgradeCompress_source c.br.buf c.conn),
                            w := { dst := c.conn, level := flate_DefaultCompression, written := [] } }),
                        buf := [], size := if c.br.size = 0 then 4096 else c.br.size, err := none },
                bw := bufio_NewWriter (c.options.wrapReadWriter (.compress
                          { Conn := c.conn,
                            r := flate_NewReader (upgradeCompress_source c.br.buf c.conn),
                            w := { dst := c.conn, level := flate_DefaultCompression, written := [] } })) },
             net) := by
  have h := drain_result spare fuel k c net
  simp only [Client.upgradeCompress, h, bufioReader.Reset]
  simp [flate_NewWriter, flate_DefaultCompression]

/-- Reading `io.MultiReader(c.conn)` gives what reading `c.conn` gives. -/
theorem readAll_multi_conn (r : ConnRef) :
    ∀ (sizes : List Nat) (net : Net), (∀ n ∈ sizes, 0 < n) →
      (ReadSource.readAll sizes (.multi [.conn r]) net).1
        = (ReadSource.readAll sizes (.direct r) net).1 := by
  intro sizes
  induction sizes with
  | nil => intro net _; rfl
  | cons n sizes ih =>
    intro net hpos
    have ih2 := fun net2 => ih net2 (fun m hm => hpos m (List.mem_cons_of_mem _ hm))
    cases hin : (net r).inbound with
    | nil =>
      simp [ReadSource.readAll, ReadSource.Read, multiReader_Read, SrcReader.Read,
        ConnState.Read, hin]
    | cons seg rest =>
      simp only [ReadSource.readAll, ReadSource.Read, multiReader_Read, SrcReader.Read,
        ConnState.Read, hin, reduceCtorEq, if_false, ne_eq, not_false_eq_true, or_true, if_true,
        false_and]
      rw [ih2]

/-- With a non-empty `p`, the first `Read` of an empty buffer followed by the
connection is the first `Read` of the connection alone. -/
theorem read_empty_buffer_then_conn (r : ConnRef) (n : Nat) (hn : 0 < n) (net : Net) :
    ReadSource.Read (.multi [.buffer [], .conn r]) n net
      = ReadSource.Read (.multi [.conn r]) n net := by
  have hn0 : n ≠ 0 := by omega
  simp [ReadSource.Read, multiReader_Read, SrcReader.Read, bytesBuffer_Read, hn0]

/-- C2. After `upgradeCompress`, the read source handed to the decompressing
reader of the installed `compressConn` yields, for every buffered content `b`
of the old `c.br` (empty or not) and every later delivery of the connection in
whatever segments, exactly `b` followed by the connection's bytes and then
`io.EOF`, when read with non-empty buffers. The branch taken for an empty
buffer (the connection itself) reads the same as an empty buffer concatenated
with the connection, for every sequence of non-empty reads. At every moment,
what any sequence of non-empty reads has obtained is an initial part of `b`
followed by the connection's bytes. -/
theorem C2_replay_before_connection (spare : Nat → Nat) (fuel k : Nat) (c : Client)
    (net later : Net) (sizes : List Nat) (hpos : ∀ n ∈ sizes, 0 < n)
    (hlen : c.br.buf.length + (later c.conn).cost + 3 ≤ sizes.length) :
    ∃ c1 cc, Client.upgradeCompress spare fuel (c.br.Buffered + 1 + k) c net = .ok (c1, net) ∧
      c1.br.rd = c.options.wrapReadWriter (.compress cc) ∧
      cc.r.src = upgradeCompress_source c.br.buf c.conn ∧
      (ReadSource.readAll sizes cc.r.src later).1
        = (c.br.buf ++ (later c.conn).pending, some GoError.EOF) ∧
      (∀ sizes2 : List Nat, (∀ n ∈ sizes2, 0 < n) →
        (ReadSource.readAll sizes2 (upgradeCompress_source [] c.conn) later).1
          = (ReadSource.readAll sizes2 (.multi [.buffer [], .conn c.conn]) later).1) ∧
      (∀ sizes2 : List Nat, (∀ n ∈ sizes2, 0 < n) →
        (ReadSource.readAll sizes2 cc.r.src later).1.1
          <+: c.br.buf ++ (later c.conn).pending) := by
  refine ⟨_, _, upgradeCompress_result spare fuel k c net, rfl, rfl, ?_, ?_, ?_⟩
  · simp only [flate_NewReader]
    by_cases hb : 0 < c.br.buf.length
    · have := readAll_content c.conn sizes (.multi [.buffer c.br.buf, .conn c.conn]) later hpos
        (by simp [ReadSource.replays])
        (by simp only [ReadSource.cost, List.map_cons, List.map_nil, SrcReader.cost,
              List.sum_cons, List.sum_nil, List.length_cons, List.length_nil]; omega)
      simp only [upgradeCompress_source, hb, if_true]
      rw [this]
      simp [ReadSource.content, SrcReader.content]
    · have hnil : c.br.buf = [] := List.length_eq_zero.mp (by omega)
      have := readAll_content c.conn sizes (.direct c.conn) later hpos
        (by simp [ReadSource.replays])
        (by simp only [ReadSource.cost]; omega)
      simp only [upgradeCompress_source, hb, if_false]
      rw [this]
      simp [ReadSource.content, hnil]
  · intro sizes2 hpos2
    simp only [upgradeCompress_source, List.length_nil, lt_self_iff_false, if_false]
    cases sizes2 with
    | nil => rfl
    | cons n rest =>
      have hn : 0 < n := hpos2 n (List.mem_cons_self _ _)
      have h1 := readAll_multi_conn c.conn (n :: rest) later hpos2
      rw [← h1]
      simp only [ReadSource.readAll, read_empty_buffer_then_conn c.conn n hn later]
  · intro sizes2 hpos2
    simp only [flate_NewReader]
    by_cases hb : 0 < c.br.buf.length
    · have := readAll_prefix c.conn sizes2 (.multi [.buffer c.br.buf, .conn c.conn]) later hpos2
        (by simp [ReadSource.replays])
      simp only [upgradeCompress_source, hb, if_true]
      simpa [ReadSource.content, SrcReader.content] using this
    · have hnil : c.br.buf = [] := List.length_eq_zero.mp (by omega)
      have := readAll_prefix c.conn sizes2 (.direct c.conn) later hpos2
        (by simp [ReadSource.replays])
      simp only [upgradeCompress_source, hb, if_false]
      simpa [ReadSource.content, hnil] using this

/-- Witness for C2: two buffered bytes "A1", then "OK" from the connection in
two segments, read with buffers of one and of 4096 bytes. -/
theorem C2_replay_before_connection_witness :
    (ReadSource.readAll [1, 1, 4096, 4096, 4096, 4096, 4096, 4096, 4096]
        (upgradeCompress_source exampleClient.br.buf exampleClient.conn) exampleNet).1
      = ([65, 49, 79, 75], some GoError.EOF) := by
  obtain ⟨c1, cc, _, _, h3, h4, _, _⟩ :=
    C2_replay_before_connection (fun _ => 0) 0 0 exampleClient exampleNet exampleNet
      [1, 1, 4096, 4096, 4096, 4096, 4096, 4096, 4096] (by decide) (by decide)
  rw [h3] at h4
  rw [h4]
  rfl

/-! ## Theorems: what upgradeCompress installs -/

/-- C9. `upgradeCompress` keeps the raw connection: `c.conn` is the same
connection afterwards, the installed `compressConn` embeds it, the compressing
writer has that connection as its destination (its writes land on the
connection's outbound bytes), and both `c.br` and `c.bw` are layered, empty, on
the one wrapper `options.wrapReadWriter` returns for the new `compressConn`. -/
theorem C9_connection_wrapped_not_replaced (spare : Nat → Nat) (fuel k : Nat) (c : Client)
    (net : Net) :
    ∃ c1 cc, Client.upgradeCompress spare fuel (c.br.Buffered + 1 + k) c net = .ok (c1, net) ∧
      c1.conn = c.conn ∧ cc.Conn = c.conn ∧ cc.w.dst = c.conn ∧
      (∀ (emit : Deflater) (b : List Byte) (n2 : Net),
        ((cc.Write emit b n2).2.2 c.conn).outbound = (n2 c.conn).outbound ++ emit [] b ∧
        ∀ r, r ≠ c.conn → (cc.Write emit b n2).2.2 r = n2 r) ∧
      c1.br.rd = c.options.wrapReadWriter (.compress cc) ∧
      c1.bw.wr = c.options.wrapReadWriter (.compress cc) ∧
      c1.br.buf = [] ∧ c1.bw.buf = [] := by
  refine ⟨_, _, upgradeCompress_result spare fuel k c net, rfl, rfl, rfl, ?_, rfl, rfl, rfl, rfl⟩
  intro emit b n2
  by_cases he : emit [] b = []
  · constructor
    · simp [compressConn.Write, flateWriter.Write, he]
    · intro r _
      simp [compressConn.Write, flateWriter.Write, he]
  · constructor
    · simp [compressConn.Write, flateWriter.Write, ConnState.Write, he]
    · intro r hr
      simp [compressConn.Write, flateWriter.Write, Function.update_noteq hr, he]

/-- Witness for C9: on the example client the new writer's output lands on
connection 0 and leaves connection 1 alone. -/
theorem C9_connection_wrapped_not_replaced_witness :
    ∃ (c1 : Client) (cc : compressConn),
      Client.upgradeCompress (fun _ => 0) 0 (exampleClient.br.Buffered + 1 + 0)
        exampleClient exampleNet = .ok (c1, exampleNet) ∧
      c1.conn = 0 ∧ cc.Conn = 0 ∧ cc.w.dst = 0 ∧
      (cc.Write (fun _ b => b) [1, 2] exampleNet).2.2 1 = exampleNet 1 := by
  obtain ⟨c1, cc, h1, h2, h3, h4, h5, _⟩ :=
    C9_connection_wrapped_not_replaced (fun _ => 0) 0 0 exampleClient exampleNet
  exact ⟨c1, cc, h1, h2, h3, h4, (h5 (fun _ b => b) [1, 2] exampleNet).2 1 (by decide)⟩

/-- C8 (as stated, refuted). In the concrete scenario the first read on the new
pipeline's reader does not yield "A001 X\r\n": those bytes are fed to the
decompressor, which rejects them (stored-block length check, five bytes in),
so the read returns no bytes and a corrupt-input error. The same holds for the
first `compressConn.Read`. -/
theorem C8_first_read_is_not_the_buffered_bytes :
    ∃ c1, Client.upgradeCompress (fun _ => 0) 0 (scenarioClient.br.Buffered + 1 + 0)
        scenarioClient scenarioNet = .ok (c1, scenarioNet) ∧
      c1.br.rd = .compress scenarioConn ∧
      (c1.br.Read 2 4096 scenarioNet).map (fun x => x.1)
        = some ([], some (GoError.CorruptInput 5)) ∧
      (scenarioConn.Read 2 4096 scenarioNet).map (fun x => x.1)
        = some ([], some (GoError.CorruptInput 5)) ∧
      (c1.br.Read 2 4096 scenarioNet).map (fun x => x.1)
        ≠ some (ascii "A001 X\r\n", none) := by
  refine ⟨_, upgradeCompress_result (fun _ => 0) 0 0 scenarioClient scenarioNet, rfl, ?_, ?_, ?_⟩
  · decide
  · decide
  · decide

/-- C8 (amended). When the pre-swap buffer holds "A001 X\r\n" and the upgrade
runs, the first read on the read source that `upgradeCompress` hands to the
decompressing reader yields exactly those bytes, before any peer-sent byte and
without reading the connection. The first read on the installed `compressConn`
returns what the decompressor makes of them: for these literal bytes, no data
and a corrupt-input error. -/
theorem C8_source_replays_buffered_bytes (spare : Nat → Nat) (fuel k : Nat) (conn : ConnRef)
    (rd : ReadWriter) (size : Nat) (err : Option GoError) (bw : bufioWriter) (options : Options)
    (net later : Net) (n : Nat) (hn : 8 ≤ n) :
    ∃ c1 cc,
      Client.upgradeCompress spare fuel
          (({ rd := rd, buf := ascii "A001 X\r\n", size := size, err := err } :
              bufioReader).Buffered + 1 + k)
          { conn := conn, br := { rd := rd, buf := ascii "A001 X\r\n", size := size, err := err },
            bw := bw, options := options } net = .ok (c1, net) ∧
      c1.br.rd = options.wrapReadWriter (.compress cc) ∧
      ascii "A001 X\r\n" = [65, 48, 48, 49, 32, 88, 13, 10] ∧
      cc.r.src.Read n later
        = (([65, 48, 48, 49, 32, 88, 13, 10], none), .multi [.buffer [], .conn conn], later) ∧
      cc.Read 2 n later
        = some (([], some (GoError.CorruptInput 5)),
            { cc with r := { cc.r with src := .multi [.buffer [], .conn conn],
                                       pulled := [65, 48, 48, 49, 32, 88, 13, 10] } }, later) := by
  have hascii : ascii "A001 X\r\n" = [65, 48, 48, 49, 32, 88, 13, 10] := by decide
  have h := upgradeCompress_result spare fuel k
    { conn := conn, br := { rd := rd, buf := ascii "A001 X\r\n", size := size, err := err },
      bw := bw, options := options } net
  refine ⟨_, ⟨conn, flate_NewReader (upgradeCompress_source (ascii "A001 X\r\n") conn),
    ⟨conn, flate_DefaultCompression, []⟩⟩, h, ?_, hascii, ?_, ?_⟩
  · rfl
  · simp only [flate_NewReader, hascii, upgradeCompress_source]
    have h8 : List.take n [65, 48, 48, 49, 32, 88, 13, 10] = [65, 48, 48, 49, 32, 88, 13, 10] :=
      List.take_of_length_le (by simpa using hn)
    have h9 : List.drop n [65, 48, 48, 49, 32, 88, 13, 10] = ([] : List Byte) :=
      List.drop_of_length_le (by simpa using hn)
    simp [ReadSource.Read, multiReader_Read, SrcReader.Read, bytesBuffer_Read, h8, h9]
  · have h0 : inflate [] = ⟨[], [], some Stop.needInput⟩ := by decide
    have h1 : inflate [65, 48, 48, 49, 32, 88, 13, 10] = ⟨[], [], some (Stop.corrupt 5)⟩ := by
      decide
    have hfill : flateReader_fill 100
        (.multi [.buffer [65, 48, 48, 49, 32, 88, 13, 10], .conn conn]) later
        = (([65, 48, 48, 49, 32, 88, 13, 10], none), .multi [.buffer [], .conn conn], later) := by
      rfl
    simp only [flate_NewReader, hascii, upgradeCompress_source, compressConn.Read]
    simp [flateReader.Read, h0, h1, hfill, nextFlush, leastOf, flate_windowSize]

/-- Witness for C8 (amended): the scenario client, read with a 4096-byte buffer. -/
theorem C8_source_replays_buffered_bytes_witness :
    ∃ c1 cc,
      Client.upgradeCompress (fun _ => 0) 0
          (({ rd := .netConn 0, buf := ascii "A001 X\r\n", size := 4096, err := none } :
              bufioReader).Buffered + 1 + 0)
          { conn := 0, br := { rd := .netConn 0, buf := ascii "A001 X\r\n", size := 4096, err := none },
            bw := bufio_NewWriter (.netConn 0), options := { wrapReadWriter := fun rw => rw } }
          scenarioNet = .ok (c1, scenarioNet) ∧
      c1.br.rd = .compress cc ∧
      ascii "A001 X\r\n" = [65, 48, 48, 49, 32, 88, 13, 10] ∧
      cc.r.src.Read 4096 scenarioNet
        = (([65, 48, 48, 49, 32, 88, 13, 10], none), .multi [.buffer [], .conn 0], scenarioNet) ∧
      cc.Read 2 4096 scenarioNet
        = some (([], some (GoError.CorruptInput 5)),
            { cc with r := { cc.r with src := .multi [.buffer [], .conn 0],
                                       pulled := [65, 48, 48, 49, 32, 88, 13, 10] } }, scenarioNet) :=
  C8_source_replays_buffered_bytes (fun _ => 0) 0 0 0 (.netConn 0) 4096 none
    (bufio_NewWriter (.netConn 0)) { wrapReadWriter := fun rw => rw } scenarioNet scenarioNet 4096
    (by decide)

/-! ## Theorems: writing through a pipeline that is not upgraded -/

/-- A write through a raw `ReadWriter` is a write on the connection. -/
theorem raw_write (ref : ConnRef) (emit : Deflater) (b : List Byte) (net : Net) :
    ∀ rw : ReadWriter, rw.isRaw ref = true →
      rw.Write emit b net = (none, rw, Function.update net ref ((net ref).Write b).2) := by
  intro rw
  induction rw with
  | netConn r =>
    intro h
    simp only [ReadWriter.isRaw, decide_eq_true_eq] at h
    subst h
    simp [ReadWriter.Write, ConnState.Write]
  | compress conn => intro h; simp [ReadWriter.isRaw] at h
  | wrapped inner ih =>
    intro h
    simp only [ReadWriter.isRaw] at h
    simp [ReadWriter.Write, ih h]

/-- Flushing a raw `bufio.Writer` without error puts its buffer on the wire. -/
theorem flush_raw (ref : ConnRef) (emit : Deflater) (bw : bufioWriter) (net : Net)
    (hraw : bw.wr.isRaw ref = true) (herr : bw.err = none) :
    (bw.Flush emit net).1 = none ∧ (bw.Flush emit net).2.1 = { bw with buf := [] } ∧
      ((bw.Flush emit net).2.2 ref).outbound = (net ref).outbound ++ bw.buf := by
  obtain ⟨wr, buf, size, err⟩ := bw
  simp only at hraw herr
  subst herr
  by_cases hb : buf = []
  · subst hb
    simp [bufioWriter.Flush]
  · simp [bufioWriter.Flush, hb, raw_write ref emit buf net wr hraw, ConnState.Write]

/-- The write loop has nothing to do for an empty `p`. -/
theorem writeLoop_nil (emit : Deflater) (k : Nat) (bw : bufioWriter) (net : Net) :
    bufioWriter.WriteLoop emit k bw [] net = (bw, [], net) := by
  cases k with
  | zero => rfl
  | succ k => simp [bufioWriter.WriteLoop]

/-- The write loop on a raw writer loses and invents no byte. -/
theorem writeLoop_raw (ref : ConnRef) (emit : Deflater) :
    ∀ (k : Nat) (bw : bufioWriter) (p : List Byte) (net : Net),
      bw.wr.isRaw ref = true → bw.err = none →
      (bufioWriter.WriteLoop emit k bw p net).1.wr = bw.wr ∧
      (bufioWriter.WriteLoop emit k bw p net).1.err = none ∧
      (bufioWriter.WriteLoop emit k bw p net).1.size = bw.size ∧
      ((bufioWriter.WriteLoop emit k bw p net).2.2 ref).outbound
          ++ (bufioWriter.WriteLoop emit k bw p net).1.buf
          ++ (bufioWriter.WriteLoop emit k bw p net).2.1
        = (net ref).outbound ++ bw.buf ++ p := by
  intro k
  induction k with
  | zero => intro bw p net _ herr; exact ⟨rfl, herr, rfl, rfl⟩
  | succ k ih =>
    intro bw p net hraw herr
    obtain ⟨wr0, buf0, size0, err0⟩ := bw
    simp only at hraw herr
    subst herr
    generalize hbw : ({ wr := wr0, buf := buf0, size := size0, err := none } : bufioWriter) = bw
    have hraw : bw.wr.isRaw ref = true := by rw [← hbw]; exact hraw
    have herr : bw.err = none := by rw [← hbw]
    have hmk : bw = { bw with err := none } := by rw [← hbw]
    by_cases hc : p.length > bw.Available
    · by_cases hb : bw.buf.length = 0
      · have hnil : bw.buf = [] := List.length_eq_zero.mp hb
        simp only [bufioWriter.WriteLoop, hc, herr, and_self, if_true, hb,
          raw_write ref emit p net bw.wr hraw, writeLoop_nil]
        simp [herr, hnil, ConnState.Write]
      · have hf := flush_raw ref emit { bw with buf := bw.buf ++ p.take bw.Available } net hraw herr
        obtain ⟨_, hf2, hf3⟩ := hf
        have hrec := ih ({ bw with buf := bw.buf ++ p.take bw.Available }.Flush emit net).2.1
          (p.drop bw.Available) ({ bw with buf := bw.buf ++ p.take bw.Available }.Flush emit net).2.2
          (by rw [hf2]; exact hraw) (by rw [hf2]; exact herr)
        simp only [bufioWriter.WriteLoop, hc, herr, and_self, if_true, hb, if_false]
        rw [herr] at hrec hf2 hf3
        obtain ⟨h1, h2, h3, h4⟩ := hrec
        refine ⟨by rw [h1, hf2], h2, by rw [h3, hf2], ?_⟩
        rw [h4, hf3, hf2]
        simp only [List.append_nil, List.append_assoc, List.take_append_drop]
    · simp only [bufioWriter.WriteLoop, hc, false_and, if_false]
      simp [herr]

/-- With an empty buffer one round of the loop makes the rest fit. -/
theorem writeLoop_fits_empty (ref : ConnRef) (emit : Deflater) (k : Nat) (bw : bufioWriter)
    (p : List Byte) (net : Net) (hraw : bw.wr.isRaw ref = true) (herr : bw.err = none)
    (hb : bw.buf = []) :
    (bufioWriter.WriteLoop emit (k + 1) bw p net).2.1.length
      ≤ (bufioWriter.WriteLoop emit (k + 1) bw p net).1.Available := by
  by_cases hc : p.length > bw.Available ∧ bw.err = none
  · have hb0 : bw.buf.length = 0 := by rw [hb]; rfl
    simp only [bufioWriter.WriteLoop, hc, and_self, if_true, hb0,
      raw_write ref emit p net bw.wr hraw, writeLoop_nil]
    simp
  · simp only [bufioWriter.WriteLoop, hc, if_false]
    simp only [herr, and_true, not_lt] at hc
    exact hc

/-- After two rounds of the loop the rest fits into the buffer. -/
theorem writeLoop_fits (ref : ConnRef) (emit : Deflater) (k : Nat) (bw : bufioWriter)
    (p : List Byte) (net : Net) (hraw : bw.wr.isRaw ref = true) (herr : bw.err = none) :
    (bufioWriter.WriteLoop emit (k + 2) bw p net).2.1.length
      ≤ (bufioWriter.WriteLoop emit (k + 2) bw p net).1.Available := by
  by_cases hb : bw.buf = []
  · exact writeLoop_fits_empty ref emit (k + 1) bw p net hraw herr hb
  · by_cases hc : p.length > bw.Available ∧ bw.err = none
    · have hb0 : ¬ bw.buf.length = 0 := fun h => hb (List.length_eq_zero.mp h)
      have hf := flush_raw ref emit { bw with buf := bw.buf ++ p.take bw.Available } net hraw herr
      obtain ⟨_, hf2, _⟩ := hf
      have := writeLoop_fits_empty ref emit k
        ({ bw with buf := bw.buf ++ p.take bw.Available }.Flush emit net).2.1
        (p.drop bw.Available) ({ bw with buf := bw.buf ++ p.take bw.Available }.Flush emit net).2.2
        (by rw [hf2]; exact hraw) (by rw [hf2]; exact herr) (by rw [hf2])
      rw [bufioWriter.WriteLoop]
      simp only [hc, and_self, if_true, hb0, if_false]
      rw [herr] at this
      exact this
    · rw [bufioWriter.WriteLoop]
      simp only [hc, if_false]
      simp only [herr, and_true, not_lt] at hc
      exact hc

/-- Go `Write` on a raw `bufio.Writer`: no error, same writer below, and the bytes
on the wire followed by the buffered bytes grow by exactly `p`. -/
theorem write_raw (ref : ConnRef) (emit : Deflater) (bw : bufioWriter) (p : List Byte) (net : Net)
    (hraw : bw.wr.isRaw ref = true) (herr : bw.err = none) :
    (bw.Write emit p net).1 = none ∧ (bw.Write emit p net).2.1.wr = bw.wr ∧
      (bw.Write emit p net).2.1.err = none ∧ (bw.Write emit p net).2.1.size = bw.size ∧
      ((bw.Write emit p net).2.2 ref).outbound ++ (bw.Write emit p net).2.1.buf
        = (net ref).outbound ++ bw.buf ++ p := by
  obtain ⟨h1, h2, h3, h4⟩ := writeLoop_raw ref emit (p.length + 2) bw p net hraw herr
  have h5 := writeLoop_fits ref emit p.length bw p net hraw herr
  simp only [bufioWriter.Write, h2, ne_eq, not_true_eq_false, if_false]
  refine ⟨trivial, h1, trivial, h3, ?_⟩
  rw [List.take_of_length_le h5, ← List.append_assoc, h4]

/-- Writing `p` and flushing a raw, empty `bufio.Writer` puts exactly `p` on the wire. -/
theorem write_flush_raw (ref : ConnRef) (emit : Deflater) (bw : bufioWriter) (p : List Byte)
    (net : Net) (hraw : bw.wr.isRaw ref = true) (herr : bw.err = none) :
    (((bw.Write emit p net).2.1.Flush emit (bw.Write emit p net).2.2).2.2 ref).outbound
        = (net ref).outbound ++ bw.buf ++ p ∧
      ((bw.Write emit p net).2.1.Flush emit (bw.Write emit p net).2.2).1 = none ∧
      ((bw.Write emit p net).2.1.Flush emit (bw.Write emit p net).2.2).2.1.buf = [] ∧
      ((bw.Write emit p net).2.1.Flush emit (bw.Write emit p net).2.2).2.1.wr = bw.wr ∧
      ((bw.Write emit p net).2.1.Flush emit (bw.Write emit p net).2.2).2.1.err = none := by
  obtain ⟨_, h2, h3, _, h5⟩ := write_raw ref emit bw p net hraw herr
  obtain ⟨f1, f2, f3⟩ := flush_raw ref emit (bw.Write emit p net).2.1 (bw.Write emit p net).2.2
    (by rw [h2]; exact hraw) h3
  refine ⟨by rw [f3, h5], f1, by rw [f2], by rw [f2]; exact h2, by rw [f2]; exact h3⟩

/-! ## Theorems: runs of CompressDeflate -/

/-- The invariant holds at the call. -/
theorem inv_start (c : Client) (net : Net) (tag : List Byte)
    (options : Option CompressDeflateOptions) :
    Session.Inv c tag (CompressDeflate_start c net tag options) := by
  constructor <;> simp [CompressDeflate_start, callsAt]

/-- Every scheduling step keeps the invariant. -/
theorem inv_step (emit : Deflater) (c : Client) (tag : List Byte) (s : Session) (t : Tick)
    (h : Session.Inv c tag s) : Session.Inv c tag (s.step emit t) := by
  obtain ⟨hcalls, hrecv, hdone, hfired, harr, hord, hbr, hconn, htag⟩ := h
  cases t with
  | outcome err =>
    cases ho : s.cmdOutcome with
    | some e =>
      simp only [Session.step, ho]
      exact ⟨hcalls, hrecv, hdone, hfired, harr, hord, hbr, hconn, htag⟩
    | none =>
      simp only [Session.step, ho]
      refine ⟨?_, ?_, ?_, ?_, ?_, ?_, hbr, hconn, htag⟩
      · simpa [List.filter_append, Event.isCall] using hcalls
      · intro hp; have := hrecv hp; rw [ho] at this; cases this
      · intro r hp; have := hdone r hp; rw [ho] at this; cases this
      · simp [hfired]
      · intro e he; simp at he; subst he; simp
      · intro hp; have := hdone none hp; rw [ho] at this; cases this
  | installed =>
    simp only [Session.step]
    refine ⟨?_, hrecv, hdone, ?_, ?_, ?_, hbr, hconn, htag⟩
    · simpa [List.filter_append, Event.isCall] using hcalls
    · simp
    · intro e he; simp [harr e he]
    · intro hp
      obtain ⟨pre, post, h1, h2, h3, h4⟩ := hord hp
      refine ⟨pre, post ++ [Event.installedSignal], ?_, h2, h3, ?_⟩
      · simp [h1]
      · simp [List.filter_append, h4, Event.isCall]
  | thread =>
    simp only [Session.step, CompressDeflate_step]
    cases hpc : s.pc with
    | entry =>
      rw [hpc] at hcalls
      refine ⟨?_, ?_, ?_, ?_, ?_, ?_, ?_, ?_, htag⟩ <;>
        simp_all [List.filter_append, Event.isCall, callsAt, Client.beginCommand]
    | sp =>
      rw [hpc] at hcalls
      refine ⟨?_, ?_, ?_, ?_, ?_, ?_, ?_, ?_, htag⟩ <;>
        simp_all [List.filter_append, Event.isCall, callsAt, enc_SP]
    | atom =>
      rw [hpc] at hcalls
      refine ⟨?_, ?_, ?_, ?_, ?_, ?_, ?_, ?_, htag⟩ <;>
        simp_all [List.filter_append, Event.isCall, callsAt, enc_Atom]
    | flush =>
      rw [hpc] at hcalls
      refine ⟨?_, ?_, ?_, ?_, ?_, ?_, ?_, ?_, htag⟩ <;>
        simp_all [List.filter_append, Event.isCall, callsAt, enc_flush]
    | wait =>
      rw [hpc] at hcalls
      cases ho : s.cmdOutcome with
      | none =>
        simp only
        exact ⟨by rw [hpc]; exact hcalls, hrecv, hdone, hfired, harr, hord, hbr, hconn, htag⟩
      | some o =>
        cases o with
        | some e =>
          refine ⟨?_, ?_, ?_, ?_, ?_, ?_, ?_, ?_, htag⟩ <;>
            simp_all [List.filter_append, Event.isCall, callsAt, enc_end]
        | none =>
          refine ⟨?_, ?_, ?_, ?_, ?_, ?_, ?_, ?_, htag⟩ <;>
            simp_all [List.filter_append, Event.isCall, callsAt]
    | recv =>
      rw [hpc] at hcalls
      have ho := hrecv hpc
      by_cases hu : s.upgradeDone = true
      · simp only [hu, if_true]
        refine ⟨?_, ?_, ?_, ?_, ?_, ?_, ?_, ?_, htag⟩
        · simp [List.filter_append, Event.isCall, callsAt, hcalls]
        · simp
        · intro r hr; simp at hr; subst hr; exact ho
        · simp [hu, hfired.mp hu]
        · intro e he; simp [harr e he]
        · intro _
          exact ⟨s.trace, [], by simp, hfired.mp hu, harr none ho, rfl⟩
        · simpa [enc_end] using hbr
        · simpa [enc_end] using hconn
      · simp only [hu, Bool.false_eq_true, if_false]
        exact ⟨by rw [hpc]; exact hcalls, hrecv, hdone, hfired, harr, hord, hbr, hconn, htag⟩
    | done r =>
      simp only
      exact ⟨hcalls, hrecv, hdone, hfired, harr, hord, hbr, hconn, htag⟩

/-- The invariant holds after every schedule. -/
theorem inv_run (emit : Deflater) (c : Client) (tag : List Byte) :
    ∀ (sched : List Tick) (s : Session), Session.Inv c tag s →
      Session.Inv c tag (s.run emit sched) := by
  intro sched
  induction sched with
  | nil => intro s h; exact h
  | cons t ts ih => intro s h; exact ih _ (inv_step emit c tag s t h)

/-- The raw-writer invariant holds at the call. -/
theorem rawInv_start (c : Client) (net : Net) (tag : List Byte)
    (options : Option CompressDeflateOptions) (herr : c.bw.err = none) :
    Session.RawInv c net tag (CompressDeflate_start c net tag options) := by
  constructor <;> simp [CompressDeflate_start, sentAt, herr, Pc.flushed]

/-- Every scheduling step keeps the raw-writer invariant. -/
theorem rawInv_step (emit : Deflater) (c : Client) (net : Net) (tag : List Byte) (s : Session)
    (t : Tick) (hraw : c.bw.wr.isRaw c.conn = true) (htag : s.tag = tag)
    (h : Session.RawInv c net tag s) : Session.RawInv c net tag (s.step emit t) := by
  obtain ⟨hwr, herr, hwire, hfl⟩ := h
  subst htag
  have hraw2 : s.client.bw.wr.isRaw c.conn = true := by rw [hwr]; exact hraw
  cases t with
  | outcome err =>
    cases ho : s.cmdOutcome <;> simp only [Session.step, ho] <;> exact ⟨hwr, herr, hwire, hfl⟩
  | installed => exact ⟨hwr, herr, hwire, hfl⟩
  | thread =>
    simp only [Session.step, CompressDeflate_step]
    cases hpc : s.pc with
    | entry =>
      obtain ⟨_, w2, w3, _, w5⟩ := write_raw c.conn emit s.client.bw
        (s.tag ++ ascii " " ++ ascii "COMPRESS") s.net hraw2 herr
      rw [hpc] at hwire
      refine ⟨by simp only [Client.beginCommand]; rw [w2, hwr],
        by simp only [Client.beginCommand]; exact w3, ?_, by simp [Pc.flushed]⟩
      simp only [Client.beginCommand, w5, hwire, sentAt, List.append_nil]
    | sp =>
      obtain ⟨_, w2, w3, _, w5⟩ := write_raw c.conn emit s.client.bw (ascii " ") s.net hraw2 herr
      rw [hpc] at hwire
      refine ⟨by simp only [enc_SP]; rw [w2, hwr], by simp only [enc_SP]; exact w3, ?_,
        by simp [Pc.flushed]⟩
      simp only [enc_SP, w5, hwire, sentAt, List.append_assoc]
    | atom =>
      obtain ⟨_, w2, w3, _, w5⟩ := write_raw c.conn emit s.client.bw (ascii "DEFLATE") s.net
        hraw2 herr
      rw [hpc] at hwire
      refine ⟨by simp only [enc_Atom]; rw [w2, hwr], by simp only [enc_Atom]; exact w3, ?_,
        by simp [Pc.flushed]⟩
      simp only [enc_Atom, w5, hwire, sentAt, List.append_assoc]
    | flush =>
      obtain ⟨f1, _, f3, f4, f5⟩ := write_flush_raw c.conn emit s.client.bw (ascii "\r\n") s.net
        hraw2 herr
      rw [hpc] at hwire
      refine ⟨by simp only [enc_flush]; rw [f4, hwr], by simp only [enc_flush]; exact f5, ?_,
        by intro _; simp only [enc_flush]; exact f3⟩
      simp only [enc_flush, f1, f3, hwire, sentAt, List.append_assoc, List.append_nil]
    | wait =>
      rw [hpc] at hwire hfl
      cases ho : s.cmdOutcome with
      | none => simp only; exact ⟨hwr, herr, by rw [hpc]; exact hwire, by rw [hpc]; exact hfl⟩
      | some o =>
        cases o with
        | some e => exact ⟨hwr, herr, hwire, fun _ => hfl rfl⟩
        | none => exact ⟨hwr, herr, hwire, fun _ => hfl rfl⟩
    | recv =>
      rw [hpc] at hwire hfl
      by_cases hu : s.upgradeDone = true
      · simp only [hu, if_true]
        exact ⟨hwr, herr, hwire, fun _ => hfl rfl⟩
      · simp only [hu, Bool.false_eq_true, if_false]
        exact ⟨hwr, herr, by rw [hpc]; exact hwire, by rw [hpc]; exact hfl⟩
    | done r =>
      simp only
      exact ⟨hwr, herr, hwire, hfl⟩

/-- The raw-writer invariant holds after every schedule. -/
theorem rawInv_run (emit : Deflater) (c : Client) (net : Net) (tag : List Byte)
    (hraw : c.bw.wr.isRaw c.conn = true) :
    ∀ (sched : List Tick) (s : Session), Session.Inv c tag s → Session.RawInv c net tag s →
      Session.RawInv c net tag (s.run emit sched) := by
  intro sched
  induction sched with
  | nil => intro s _ h; exact h
  | cons t ts ih =>
    intro s hi h
    exact ih _ (inv_step emit c tag s t hi) (rawInv_step emit c net tag s t hraw hi.tag_eq h)

/-- A step of the run only uses `c.bw` through `Write` and `Flush`. -/
theorem used_step (emit : Deflater) (b : bufioWriter) (s : Session) (t : Tick)
    (h : bufioWriter.UsedFrom emit b s.client.bw) :
    bufioWriter.UsedFrom emit b (s.step emit t).client.bw := by
  cases t with
  | outcome err => cases ho : s.cmdOutcome <;> simp only [Session.step, ho] <;> exact h
  | installed => exact h
  | thread =>
    simp only [Session.step, CompressDeflate_step]
    cases hpc : s.pc with
    | entry => exact bufioWriter.UsedFrom.write h _ _
    | sp => exact bufioWriter.UsedFrom.write h _ _
    | atom => exact bufioWriter.UsedFrom.write h _ _
    | flush => exact bufioWriter.UsedFrom.flush (bufioWriter.UsedFrom.write h _ _) _
    | wait =>
      cases ho : s.cmdOutcome with
      | none => exact h
      | some o => cases o <;> exact h
    | recv => by_cases hu : s.upgradeDone = true <;> simp only [hu, if_true] <;> exact h
    | done r => exact h

/-- After every schedule `c.bw` is the writer of the call, used and not replaced. -/
theorem used_run (emit : Deflater) (b : bufioWriter) :
    ∀ (sched : List Tick) (s : Session), bufioWriter.UsedFrom emit b s.client.bw →
      bufioWriter.UsedFrom emit b (s.run emit sched).client.bw := by
  intro sched
  induction sched with
  | nil => intro s h; exact h
  | cons t ts ih => intro s h; exact ih _ (used_step emit b s t h)

/-- Only the installed tick changes the installed signal. -/
theorem step_upgradeDone (emit : Deflater) (s : Session) (t : Tick) (ht : t ≠ Tick.installed) :
    (s.step emit t).upgradeDone = s.upgradeDone := by
  cases t with
  | installed => exact absurd rfl ht
  | outcome err => cases ho : s.cmdOutcome <;> simp [Session.step, ho]
  | thread =>
    simp only [Session.step, CompressDeflate_step]
    cases hpc : s.pc with
    | wait =>
      cases ho : s.cmdOutcome with
      | none => rfl
      | some o => cases o <;> rfl
    | recv => by_cases hu : s.upgradeDone = true <;> simp [hu]
    | _ => rfl

/-- Without an installed tick the installed signal stays as it was. -/
theorem run_upgradeDone (emit : Deflater) :
    ∀ (sched : List Tick) (s : Session), Tick.installed ∉ sched →
      (s.run emit sched).upgradeDone = s.upgradeDone := by
  intro sched
  induction sched with
  | nil => intro s _; rfl
  | cons t ts ih =>
    intro s h
    simp only [List.mem_cons, not_or] at h
    have h1 := ih (s.step emit t) h.2
    have h2 := step_upgradeDone emit s t (fun e => h.1 e.symm)
    simp only [Session.run, List.foldl_cons] at h1 ⊢
    rw [h1, h2]

/-- A step of the calling goroutine makes the next encoder call until the
command is flushed; the signals of the response reader do not move it. -/
theorem step_rank (emit : Deflater) (s : Session) (t : Tick) :
    (s.step emit t).pc.rank = min 4 (s.pc.rank + if t = Tick.thread then 1 else 0) := by
  cases t with
  | installed => cases hpc : s.pc <;> simp [Session.step, hpc, Pc.rank]
  | outcome err =>
    cases ho : s.cmdOutcome <;> cases hpc : s.pc <;> simp [Session.step, ho, hpc, Pc.rank]
  | thread =>
    simp only [Session.step, CompressDeflate_step]
    cases hpc : s.pc with
    | wait =>
      cases ho : s.cmdOutcome with
      | none => simp [hpc, Pc.rank]
      | some o => cases o <;> simp [Pc.rank]
    | recv => by_cases hu : s.upgradeDone = true <;> simp [hu, hpc, Pc.rank]
    | done r => simp [hpc, Pc.rank]
    | _ => simp [Pc.rank]

/-- After a schedule the call has made as many encoder calls as it was given
steps, up to the four that send and flush the command. -/
theorem run_rank (emit : Deflater) :
    ∀ (sched : List Tick) (s : Session),
      (s.run emit sched).pc.rank = min 4 (s.pc.rank + sched.count Tick.thread) := by
  intro sched
  induction sched with
  | nil =>
    intro s
    have : s.pc.rank ≤ 4 := by cases s.pc <;> simp [Pc.rank]
    simp [Session.run, this]
  | cons t ts ih =>
    intro s
    have h1 := ih (s.step emit t)
    have h2 := step_rank emit s t
    simp only [Session.run, List.foldl_cons] at h1 ⊢
    rw [h1, h2, List.count_cons]
    by_cases ht : t = Tick.thread
    · subst ht; simp only [if_true, beq_self_eq_true]; omega
    · have hne : (t == Tick.thread) = false := by simp [ht]
      simp only [ht, if_false, hne, Bool.false_eq_true]; omega

/-- The command is flushed exactly when the call has made all four encoder calls. -/
theorem flushed_iff_rank (pc : Pc) : pc.flushed = true ↔ pc.rank = 4 := by
  cases pc <;> simp [Pc.flushed, Pc.rank]

/-- C4. When the negotiation outcome is success, a call of `CompressDeflate`
that has returned has returned nil, and in its run the receive on `upgradeDone`
and the return come after the installed signal fired, which is a signal of its
own, raised after and apart from the negotiation-outcome signal; no return
happens before it. Without an installed signal the call does not return, and
once both signals have come it does return nil. -/
theorem C4_return_follows_installed (emit : Deflater) (c : Client) (net : Net) (tag : List Byte)
    (options : Option CompressDeflateOptions) :
    (∀ (sched : List Tick) (r : Option GoError),
        ((CompressDeflate_start c net tag options).run emit sched).cmdOutcome = some none →
        ((CompressDeflate_start c net tag options).run emit sched).pc = .done r →
        r = none ∧ Tick.installed ∈ sched ∧
        ∃ pre post, ((CompressDeflate_start c net tag options).run emit sched).trace
            = pre ++ Event.recvUpgradeDone :: Event.encEnd :: Event.ret none :: post ∧
          Event.installedSignal ∈ pre ∧ Event.outcomeSignal none ∈ pre ∧
          (∀ r1, Event.ret r1 ∉ pre) ∧ (∀ r1, Event.ret r1 ∉ post)) ∧
      ((CompressDeflate_start c net tag options).run emit successSchedule).pc = .done none ∧
      ((CompressDeflate_start c net tag options).run emit successSchedule).cmdOutcome
        = some none := by
  refine ⟨?_, rfl, rfl⟩
  intro sched r hout hret
  have hinv := inv_run emit c tag sched _ (inv_start c net tag options)
  have hr : r = none := by
    have := hinv.atDone r hret
    rw [hout] at this
    exact (Option.some.inj this).symm
  subst hr
  obtain ⟨pre, post, h1, h2, h3, h4⟩ := hinv.ordered hret
  have hcalls := hinv.calls
  rw [hret, h1] at hcalls
  simp only [List.filter_append, List.filter_cons, Event.isCall, if_true, h4, callsAt] at hcalls
  have hpre : pre.filter Event.isCall
      = [.beginCommand "COMPRESS", .SP, .Atom "DEFLATE", .flush, .waitReturned none] := by
    have := congrArg (fun l => l.take (l.length - 3)) hcalls
    simpa using this
  refine ⟨rfl, ?_, pre, post, h1, h2, h3, ?_, ?_⟩
  · by_contra hno
    have hu := run_upgradeDone emit sched (CompressDeflate_start c net tag options) hno
    have hin : Event.installedSignal
        ∈ ((CompressDeflate_start c net tag options).run emit sched).trace := by
      rw [h1]; simp [h2]
    have := hinv.fired.mpr hin
    rw [hu] at this
    simp [CompressDeflate_start] at this
  · intro r1 hmem
    have : Event.ret r1 ∈ pre.filter Event.isCall := by
      simp [List.mem_filter, hmem, Event.isCall]
    rw [hpre] at this
    simp at this
  · intro r1 hmem
    have : Event.ret r1 ∈ post.filter Event.isCall := by
      simp [List.mem_filter, hmem, Event.isCall]
    rw [h4] at this
    simp at this

/-- Witness for C4: the successful schedule on the example client. -/
theorem C4_return_follows_installed_witness :
    ∃ pre post, ((CompressDeflate_start exampleClient exampleNet [65] none).run
          (fun _ b => b) successSchedule).trace
        = pre ++ Event.recvUpgradeDone :: Event.encEnd :: Event.ret none :: post ∧
      Event.installedSignal ∈ pre ∧ Event.outcomeSignal none ∈ pre :=
  have h := (C4_return_follows_installed (fun _ b => b) exampleClient exampleNet [65] none).1
    successSchedule none rfl rfl
  match h.2.2 with
  | ⟨pre, post, h1, h2, h3, _⟩ => ⟨pre, post, h1, h2, h3⟩

/-- C3. When the negotiation outcome is a failure `err`, a call of
`CompressDeflate` that has returned has returned exactly `err` and never
received from `upgradeDone`; from the wait it returns in one step whatever the
state of that signal. The client's `c.br` and `c.conn` are as before the call
and `c.bw` is the same writer, only written to and flushed; for a pipeline that
was not upgraded it still writes to the same connection: any bytes written and
flushed afterwards arrive on the connection uncompressed and unchanged. -/
theorem C3_failure_leaves_pipeline (emit : Deflater) (c : Client) (net : Net) (tag : List Byte)
    (options : Option CompressDeflateOptions) :
    (∀ (sched : List Tick) (err : GoError) (r : Option GoError),
        ((CompressDeflate_start c net tag options).run emit sched).cmdOutcome = some (some err) →
        ((CompressDeflate_start c net tag options).run emit sched).pc = .done r →
        r = some err ∧
        Event.recvUpgradeDone ∉ ((CompressDeflate_start c net tag options).run emit sched).trace ∧
        ((CompressDeflate_start c net tag options).run emit sched).client.br = c.br ∧
        ((CompressDeflate_start c net tag options).run emit sched).client.conn = c.conn ∧
        bufioWriter.UsedFrom emit c.bw
          ((CompressDeflate_start c net tag options).run emit sched).client.bw ∧
        (c.bw.wr.isRaw c.conn = true → c.bw.err = none →
          ((CompressDeflate_start c net tag options).run emit sched).client.bw.wr = c.bw.wr ∧
          ∀ b : List Byte,
            (writeThenFlush emit
                ((CompressDeflate_start c net tag options).run emit sched).client.bw b
                ((CompressDeflate_start c net tag options).run emit sched).net c.conn).outbound
            = (((CompressDeflate_start c net tag options).run emit sched).net c.conn).outbound
                ++ b)) ∧
      (∀ (s : Session) (err : GoError), s.pc = .wait → s.cmdOutcome = some (some err) →
        (CompressDeflate_step emit s).pc = .done (some err) ∧
        (CompressDeflate_step emit s).client = s.client) := by
  constructor
  · intro sched err r hout hret
    have hinv := inv_run emit c tag sched _ (inv_start c net tag options)
    have hr : r = some err := by
      have := hinv.atDone r hret
      rw [hout] at this
      exact (Option.some.inj this).symm
    subst hr
    refine ⟨rfl, ?_, hinv.br_eq, hinv.conn_eq,
      used_run emit c.bw sched _ bufioWriter.UsedFrom.refl, ?_⟩
    · intro hmem
      have hcalls := hinv.calls
      rw [hret] at hcalls
      have : Event.recvUpgradeDone
          ∈ (((CompressDeflate_start c net tag options).run emit sched).trace).filter
              Event.isCall := by
        simp [List.mem_filter, hmem, Event.isCall]
      rw [hcalls] at this
      simp [callsAt] at this
    · intro hraw herr
      have hri := rawInv_run emit c net tag hraw sched _ (inv_start c net tag options)
        (rawInv_start c net tag options herr)
      refine ⟨hri.wr_eq, ?_⟩
      intro b
      have hbuf := hri.flushed (by rw [hret]; rfl)
      have := (write_flush_raw c.conn emit
        ((CompressDeflate_start c net tag options).run emit sched).client.bw b
        ((CompressDeflate_start c net tag options).run emit sched).net
        (by rw [hri.wr_eq]; exact hraw) hri.err_eq).1
      rw [writeThenFlush, this, hbuf, List.append_nil]
  · intro s err hpc ho
    simp [CompressDeflate_step, hpc, ho, enc_end]

/-- Witness for C3: the peer answers NO; afterwards the bytes "N" written
through the pipeline arrive as they are. -/
theorem C3_failure_leaves_pipeline_witness :
    ((CompressDeflate_start exampleClient exampleNet [65] none).run
        (fun _ b => b) failureSchedule).client.br = exampleClient.br ∧
      Event.recvUpgradeDone ∉ ((CompressDeflate_start exampleClient exampleNet [65] none).run
        (fun _ b => b) failureSchedule).trace :=
  have h := (C3_failure_leaves_pipeline (fun _ b => b) exampleClient exampleNet [65] none).1
    failureSchedule (GoError.other "NO") (some (GoError.other "NO")) rfl rfl
  ⟨h.2.2.1, h.2.1⟩

/-- C7. Whatever the options argument, every call of `CompressDeflate` sends
its command: each of its first four steps makes the next encoder call, so once
it has taken four steps (whatever the response reader does meanwhile) the
command is begun and flushed, and not before. The calls made at any moment are
an initial part of the fixed sequence: begin the command COMPRESS, a space, the
atom DEFLATE, one flush, then the wait on the outcome, the receive (on
success), the deferred end and the return. So from the flush on the call has
begun exactly one command, whose text is "COMPRESS DEFLATE", and flushed
exactly once, before the wait. On a pipeline that was not upgraded the
connection has received, from the flush on and unchanged until the return,
the writer's earlier content, the tag and " COMPRESS DEFLATE\r\n", and nothing
more. -/
theorem C7_one_command_one_flush (emit : Deflater) (c : Client) (net : Net) (tag : List Byte)
    (options : Option CompressDeflateOptions) (sched : List Tick) :
    ((CompressDeflate_start c net tag options).run emit sched).trace.filter Event.isCall
        = callsAt ((CompressDeflate_start c net tag options).run emit sched).pc ∧
      (∀ r, ((CompressDeflate_start c net tag options).run emit sched).pc = .done r →
        (((CompressDeflate_start c net tag options).run emit sched).trace.filter
            Event.isCall).take 5
          = [.beginCommand "COMPRESS", .SP, .Atom "DEFLATE", .flush, .waitReturned r] ∧
        (∀ name, Event.beginCommand name
            ∈ ((CompressDeflate_start c net tag options).run emit sched).trace →
          name = "COMPRESS") ∧
        (((CompressDeflate_start c net tag options).run emit sched).trace).count
            (.beginCommand "COMPRESS") = 1 ∧
        (((CompressDeflate_start c net tag options).run emit sched).trace).count .flush = 1 ∧
        (((CompressDeflate_start c net tag options).run emit sched).trace).count .SP = 1 ∧
        (∀ a, (((CompressDeflate_start c net tag options).run emit sched).trace).count (.Atom a)
            = if a = "DEFLATE" then 1 else 0) ∧
        commandText (((CompressDeflate_start c net tag options).run emit sched).trace.filter
            Event.isCall) = ascii "COMPRESS DEFLATE") ∧
      (c.bw.wr.isRaw c.conn = true → c.bw.err = none →
        ((CompressDeflate_start c net tag options).run emit sched).pc.flushed = true →
        (((CompressDeflate_start c net tag options).run emit sched).net c.conn).outbound
            = (net c.conn).outbound ++ c.bw.buf ++ tag ++ ascii " COMPRESS DEFLATE\r\n" ∧
          ((CompressDeflate_start c net tag options).run emit sched).client.bw.buf = []) ∧
      ((CompressDeflate_start c net tag options).run emit sched).pc.rank
        = min 4 (sched.count Tick.thread) ∧
      (((CompressDeflate_start c net tag options).run emit sched).pc.flushed = true
        ↔ 4 ≤ sched.count Tick.thread) ∧
      (((CompressDeflate_start c net tag options).run emit sched).pc.flushed = true →
        (((CompressDeflate_start c net tag options).run emit sched).trace.filter
            Event.isCall).take 4
          = [.beginCommand "COMPRESS", .SP, .Atom "DEFLATE", .flush] ∧
        (∀ name, Event.beginCommand name
            ∈ ((CompressDeflate_start c net tag options).run emit sched).trace →
          name = "COMPRESS") ∧
        (((CompressDeflate_start c net tag options).run emit sched).trace).count
            (.beginCommand "COMPRESS") = 1 ∧
        (((CompressDeflate_start c net tag options).run emit sched).trace).count .flush = 1 ∧
        (((CompressDeflate_start c net tag options).run emit sched).trace).count .SP = 1 ∧
        (∀ a, (((CompressDeflate_start c net tag options).run emit sched).trace).count (.Atom a)
            = if a = "DEFLATE" then 1 else 0) ∧
        commandText (((CompressDeflate_start c net tag options).run emit sched).trace.filter
            Event.isCall) = ascii "COMPRESS DEFLATE") := by
  have hinv := inv_run emit c tag sched _ (inv_start c net tag options)
  have hcalls := hinv.calls
  have hcount : ∀ e : Event, e.isCall = true →
      (((CompressDeflate_start c net tag options).run emit sched).trace).count e
        = (callsAt ((CompressDeflate_start c net tag options).run emit sched).pc).count e := by
    intro e he
    rw [← hcalls, List.count_filter he]
  have hrank : ((CompressDeflate_start c net tag options).run emit sched).pc.rank
      = min 4 (sched.count Tick.thread) := by
    have := run_rank emit sched (CompressDeflate_start c net tag options)
    simpa [CompressDeflate_start, Pc.rank] using this
  have h5 : ascii "COMPRESS" ++ (ascii " " ++ ascii "DEFLATE") = ascii "COMPRESS DEFLATE" := by
    decide
  -- what holds at every program point from the flush on
  have hflushed : ∀ pc : Pc, pc.flushed = true →
      (callsAt pc).take 4 = [.beginCommand "COMPRESS", .SP, .Atom "DEFLATE", .flush] ∧
      (∀ name, Event.beginCommand name ∈ callsAt pc → name = "COMPRESS") ∧
      (callsAt pc).count (.beginCommand "COMPRESS") = 1 ∧
      (callsAt pc).count .flush = 1 ∧ (callsAt pc).count .SP = 1 ∧
      (∀ a, (callsAt pc).count (.Atom a) = if a = "DEFLATE" then 1 else 0) ∧
      commandText (callsAt pc) = ascii "COMPRESS DEFLATE" := by
    intro pc hpc
    have hatom : ∀ a : String, (Event.Atom "DEFLATE" == Event.Atom a) = decide (a = "DEFLATE") := by
      intro a
      by_cases ha : a = "DEFLATE"
      · subst ha; simp
      · have : ¬ "DEFLATE" = a := fun h => ha h.symm
        simp [this, ha]
    cases pc with
    | entry => simp [Pc.flushed] at hpc
    | sp => simp [Pc.flushed] at hpc
    | atom => simp [Pc.flushed] at hpc
    | flush => simp [Pc.flushed] at hpc
    | wait =>
      refine ⟨rfl, ?_, ?_, ?_, ?_, ?_, ?_⟩ <;>
        simp [callsAt, List.count_cons, commandText, h5, hatom]
    | recv =>
      refine ⟨rfl, ?_, ?_, ?_, ?_, ?_, ?_⟩ <;>
        simp [callsAt, List.count_cons, commandText, h5, hatom]
    | done r =>
      cases r <;> refine ⟨rfl, ?_, ?_, ?_, ?_, ?_, ?_⟩ <;>
        simp [callsAt, List.count_cons, commandText, h5, hatom]
  have hname : ∀ name, Event.beginCommand name
      ∈ ((CompressDeflate_start c net tag options).run emit sched).trace →
      Event.beginCommand name
        ∈ callsAt ((CompressDeflate_start c net tag options).run emit sched).pc := by
    intro name hmem
    rw [← hcalls]
    simp [List.mem_filter, hmem, Event.isCall]
  have hall : ((CompressDeflate_start c net tag options).run emit sched).pc.flushed = true →
      (((CompressDeflate_start c net tag options).run emit sched).trace.filter
          Event.isCall).take 4
        = [.beginCommand "COMPRESS", .SP, .Atom "DEFLATE", .flush] ∧
      (∀ name, Event.beginCommand name
          ∈ ((CompressDeflate_start c net tag options).run emit sched).trace →
        name = "COMPRESS") ∧
      (((CompressDeflate_start c net tag options).run emit sched).trace).count
          (.beginCommand "COMPRESS") = 1 ∧
      (((CompressDeflate_start c net tag options).run emit sched).trace).count .flush = 1 ∧
      (((CompressDeflate_start c net tag options).run emit sched).trace).count .SP = 1 ∧
      (∀ a, (((CompressDeflate_start c net tag options).run emit sched).trace).count (.Atom a)
          = if a = "DEFLATE" then 1 else 0) ∧
      commandText (((CompressDeflate_start c net tag options).run emit sched).trace.filter
          Event.isCall) = ascii "COMPRESS DEFLATE" := by
    intro hfl
    obtain ⟨f1, f2, f3, f4, f5, f6, f7⟩ := hflushed _ hfl
    refine ⟨by rw [hcalls]; exact f1, fun name hmem => f2 name (hname name hmem),
      by rw [hcount (.beginCommand "COMPRESS") rfl]; exact f3,
      by rw [hcount .flush rfl]; exact f4,
      by rw [hcount .SP rfl]; exact f5, fun a => by rw [hcount (.Atom a) rfl]; exact f6 a,
      by rw [hcalls]; exact f7⟩
  refine ⟨hcalls, ?_, ?_, hrank, ?_, hall⟩
  · intro r hret
    have hfl : ((CompressDeflate_start c net tag options).run emit sched).pc.flushed = true := by
      rw [hret]; rfl
    obtain ⟨_, g2, g3, g4, g5, g6, g7⟩ := hall hfl
    refine ⟨?_, g2, g3, g4, g5, g6, g7⟩
    rw [hcalls, hret]; cases r <;> rfl
  · intro hraw herr hfl
    have hri := rawInv_run emit c net tag hraw sched _ (inv_start c net tag options)
      (rawInv_start c net tag options herr)
    have hbuf := hri.flushed hfl
    have hw := hri.wire
    rw [hbuf, List.append_nil] at hw
    refine ⟨?_, hbuf⟩
    rw [hw]
    have hs : sentAt tag ((CompressDeflate_start c net tag options).run emit sched).pc
        = tag ++ ascii " COMPRESS DEFLATE\r\n" := by
      have h6 : ascii " " ++ ascii "COMPRESS" ++ ascii " " ++ ascii "DEFLATE" ++ ascii "\r\n"
          = ascii " COMPRESS DEFLATE\r\n" := by decide
      cases hpc : ((CompressDeflate_start c net tag options).run emit sched).pc <;>
        simp_all [Pc.flushed, sentAt, List.append_assoc]
    rw [hs]
    simp only [List.append_assoc]
  · rw [flushed_iff_rank, hrank]
    omega

/-- Witness for C7: on the example client, after the failing run, the wire
holds the tagged command line once. -/
theorem C7_one_command_one_flush_witness :
    (((CompressDeflate_start exampleClient exampleNet [65] none).run
          (fun _ b => b) failureSchedule).net 0).outbound
        = [65] ++ ascii " COMPRESS DEFLATE\r\n" ∧
      (((CompressDeflate_start exampleClient exampleNet [65] none).run
          (fun _ b => b) failureSchedule).trace).count .flush = 1 ∧
      ((CompressDeflate_start exampleClient exampleNet [65] none).run
          (fun _ b => b) failureSchedule).pc.flushed = true := by
  have h := C7_one_command_one_flush (fun _ b => b) exampleClient exampleNet [65] none
    failureSchedule
  have hfl := h.2.2.2.2.1.mpr (by decide)
  exact ⟨by simpa [exampleClient, exampleNet] using (h.2.2.1 rfl rfl hfl).1,
    (h.2.2.2.2.2 hfl).2.2.2.1, hfl⟩

end Imapclient
